import Mathlib

/-!
# Noesis.Javascript: `JavascriptContext.cpp`

A shallow embedding of `Source/Noesis.Javascript/JavascriptContext.cpp` and the properties
of it that the specification states.
-/

namespace Noesis.Javascript

/-! ## Locating the engine's resource files -/

/-- Windows' `MAX_PATH`, the size in bytes of each of the three path buffers. -/
def MAX_PATH : Nat := 260

/-- The CRT's `strrchr(s, c)` on a C string (the characters before the NUL): the offset of
the last occurrence of `c`, `none` for the null pointer it returns when `c` is absent. -/
def strrchr : List Char → Char → Option Nat
  | [], _ => none
  | x :: rest, c =>
    match strrchr rest c with
    | some i => some (i + 1)
    | none => if x = c then some 0 else none

/-- A `char[MAX_PATH]` buffer: the C string it holds from offset 0, and how many of its
bytes, counted from offset 0, have been stored to so far (the terminating NUL included). -/
structure CharBuf where
  str : List Char
  written : Nat
  deriving DecidableEq, Repr

/-- Why `GetPathsForInitialisation` did not return: each is followed by the end of the
process (`raise(SIGABRT)`, or the CRT's invalid-parameter handler). -/
inductive InitAbort where
  | moduleHandle
  | moduleFileName
  | pathTooLong
  | invalidParameter
  deriving DecidableEq, Repr

/-- What the operating system answers during initialisation: whether `GetModuleHandleExA`
finds the module, the module's file name (`none` when `GetModuleFileNameA` fails), and
which files `fopen_s(.., "r")` can open. -/
structure HostEnv where
  moduleHandleFound : Bool
  moduleFileName : Option (List Char)
  canOpen : List Char → Bool

/-- Windows' `GetModuleFileNameA(hm, buf, nSize)`: the number of characters copied and the
string left in the buffer; 0 on failure, `nSize` with a truncated string when the name
does not fit. -/
def GetModuleFileNameA (env : HostEnv) (nSize : Nat) : Nat × List Char :=
  match env.moduleFileName with
  | none => (0, [])
  | some p => if p.length < nSize then (p.length, p) else (nSize, p.take (nSize - 1))

/-- The CRT's `strcpy_s(dest, size, src)` where `dest` points `offset` bytes into `buf`
(`none`: `dest` is the null pointer): the copy goes ahead when `src` and its NUL fit in
`size` bytes, whatever the room really left in `buf`. -/
def strcpy_s (buf : CharBuf) (offset : Option Nat) (size : Nat) (src : List Char) :
    Except InitAbort CharBuf :=
  match offset with
  | none => .error .invalidParameter
  | some k =>
    if src.length < size then
      .ok { str := buf.str.take k ++ src, written := max buf.written (k + src.length + 1) }
    else .error .invalidParameter

/-- The three buffers of `UnmanagedInitialisation` as `GetPathsForInitialisation` leaves them. -/
structure InitPaths where
  dll_path : CharBuf
  natives_blob_bin_path : CharBuf
  snapshot_blob_bin_path : CharBuf
  deriving DecidableEq, Repr

/-- `GetPathsForInitialisation` (JavascriptContext.cpp, lines 52-88). -/
def GetPathsForInitialisation (env : HostEnv) : Except InitAbort InitPaths := do
  if !env.moduleHandleFound then throw .moduleHandle
  let (nchars, dll) := GetModuleFileNameA env MAX_PATH
  let dll_path : CharBuf := { str := dll, written := dll.length + 1 }
  if nchars = 0 ∨ nchars ≥ MAX_PATH then throw .moduleFileName
  let natives ← strcpy_s { str := [], written := 0 } (some 0) MAX_PATH dll_path.str
  let snapshot ← strcpy_s { str := [], written := 0 } (some 0) MAX_PATH dll_path.str
  if dll_path.str.length > MAX_PATH - 20 then throw .pathTooLong
  let natives ← strcpy_s natives (strrchr natives.str '\\') 21 "\\v8_natives_blob.bin".toList
  let snapshot ← strcpy_s snapshot (strrchr snapshot.str '\\') 22 "\\v8_snapshot_blob.bin".toList
  let natives ←
    if env.canOpen natives.str then pure natives
    else strcpy_s natives (strrchr natives.str '\\') 18 "\\natives_blob.bin".toList
  let snapshot ←
    if env.canOpen snapshot.str then pure snapshot
    else strcpy_s snapshot (strrchr snapshot.str '\\') 19 "\\snapshot_blob.bin".toList
  return { dll_path := dll_path, natives_blob_bin_path := natives, snapshot_blob_bin_path := snapshot }

/-! ## Contexts, the wrapper registry and the scope guard -/

/-- A `System::Object^` that is not `nullptr`: a reference to a managed object. Two host
objects are the same object exactly when the references are equal. -/
abbrev HostObject := Nat

/-- The address of a native object. -/
abbrev Ptr := Nat

/-- The null pointer. -/
def NULL : Ptr := 0

/-- A `v8::Isolate *`. -/
abbrev Isolate := Nat

/-- A `JavascriptContext^`: a reference to a managed `JavascriptContext` object. -/
abbrev ContextRef := Nat

/-- The key comparison of `mExternals`. The dictionary is created without a comparer
(line 151), so it compares keys with `EqualityComparer<Object>::Default`, which calls the
keys' own virtual `Equals` and `GetHashCode`. -/
structure EqualityComparer where
  Equals : HostObject → HostObject → Bool
  GetHashCode : HostObject → Nat

/-- The contract .NET puts on `Object.Equals`: an equivalence relation. -/
structure EqualityComparer.Lawful (cmp : EqualityComparer) : Prop where
  refl : ∀ a, cmp.Equals a a = true
  symm : ∀ a b, cmp.Equals a b = true → cmp.Equals b a = true
  trans : ∀ a b c, cmp.Equals a b = true → cmp.Equals b c = true → cmp.Equals a c = true

/-- One entry of a `Dictionary<Object^, WrappedJavascriptExternal>`: the key's hash code as
computed when it was added, the key, and the wrapped `JavascriptExternal *`. -/
structure Entry where
  hashCode : Nat
  key : HostObject
  value : Ptr
  deriving DecidableEq, Repr

/-- The entries of a .NET `Dictionary`, the most recently added first: the order in which
a lookup walks the entries that share a hash code (nothing is ever removed here). -/
abbrev Dictionary := List Entry

/-- The test a lookup of `key` applies to an entry: equal hash codes, then `Equals`. -/
def Entry.isMatch (cmp : EqualityComparer) (key : HostObject) (e : Entry) : Bool :=
  e.hashCode == cmp.GetHashCode key && cmp.Equals e.key key

/-- `Dictionary.FindEntry`. -/
def Dictionary.FindEntry (cmp : EqualityComparer) (d : Dictionary) (key : HostObject) :
    Option Entry :=
  d.find? (Entry.isMatch cmp key)

/-- `Dictionary.TryGetValue`: `some v` for `true` with the out parameter set to `v`. -/
def Dictionary.TryGetValue (cmp : EqualityComparer) (d : Dictionary) (key : HostObject) :
    Option Ptr :=
  (d.FindEntry cmp key).map (·.value)

/-- Overwrites the value of the first entry a lookup of `key` reaches. -/
def Dictionary.replaceValue (cmp : EqualityComparer) (key : HostObject) (value : Ptr) :
    Dictionary → Dictionary
  | [] => []
  | e :: rest =>
    if e.isMatch cmp key then { e with value := value } :: rest
    else e :: Dictionary.replaceValue cmp key value rest

/-- The indexer's setter, `d[key] = value`: overwrite the entry found, else add one. -/
def Dictionary.set_Item (cmp : EqualityComparer) (d : Dictionary) (key : HostObject)
    (value : Ptr) : Dictionary :=
  if (d.FindEntry cmp key).isSome then Dictionary.replaceValue cmp key value d
  else { hashCode := cmp.GetHashCode key, key := key, value := value } :: d

/-- `Dictionary.Values`, enumerated in the order the entries were added. -/
def Dictionary.Values (d : Dictionary) : List Ptr :=
  d.reverse.map (·.value)

/-- C++ `new`: the address it returns is not the address of a live object. -/
structure Allocator where
  alloc : List Ptr → Ptr
  fresh : ∀ live, alloc live ∉ live

/-- The fields of one `JavascriptContext` object. -/
structure JavascriptContext where
  isolate : Isolate
  mContext : Ptr
  mExternals : Dictionary
  deriving DecidableEq, Repr

/-- A compiled script, as held by a non-empty `Local<Script>`. -/
abbrev Script := Nat

/-- An engine value, as held by a non-empty `Local<Value>`. -/
abbrev Value := Nat

/-- A host value, as `JavascriptInterop::ConvertFromV8` returns it. -/
abbrev HostValue := Nat

/-- What a `TryCatch` holds after a failed engine call. -/
abbrev TryCatch := Nat

/-- The managed exception `JavascriptException(tryCatch)`. -/
structure JavascriptException where
  tryCatch : TryCatch
  deriving DecidableEq, Repr

/-- What `Run` and `CompileScript` call in the engine and in `JavascriptInterop`, over the
engine's own state `σ`. `Compile` and `Run` answer with a handle, `none` for an empty
one; `caught` is what the `TryCatch` in scope then holds. Handle scopes (`HandleScope`)
and the conversion of strings are the engine's own bookkeeping and are left out. -/
structure Engine (σ : Type) where
  Compile : String → Option String → σ → Option Script × σ
  Run : Script → σ → Option Value × σ
  /-- Modelled from the spec: the wrappers "let the engine call back into host objects";
  `exposed` lists the host objects that the callbacks made while the script executes
  hand to the engine, in order. -/
  exposed : Script → σ → List HostObject
  caught : σ → TryCatch
  ConvertFromV8 : Value → HostValue

/-- The calls made on the engine and on native memory, in the order they happen. -/
inductive Event where
  | isolateNew (isolate : Isolate)
  | setFatalErrorHandler (isolate : Isolate)
  | lockerCtor (isolate : Isolate)
  | lockerDtor (isolate : Isolate)
  | isolateEnter (isolate : Isolate)
  | isolateExit (isolate : Isolate)
  | isolateDispose (isolate : Isolate)
  | contextNew (isolate : Isolate) (context : Ptr)
  | contextEnter (isolate : Isolate) (context : Ptr)
  | contextExit (isolate : Isolate) (context : Ptr)
  | compile (source : String) (resource : Option String)
  | run (script : Script)
  | deleteExternal (p : Ptr)
  | deleteContext (p : Ptr)
  | deleteExternals (this : ContextRef)
  deriving DecidableEq, Repr

/-- The state one thread of the process sees. `sCurrentContext` is the thread's own
current-context slot; of the locks it records those this thread holds. -/
structure State (σ : Type) where
  /-- The fields of each `JavascriptContext` object. -/
  objects : ContextRef → JavascriptContext
  /-- The addresses of the live native objects made with `new`. -/
  heap : List Ptr
  /-- The static `sCurrentContext`, `none` for `nullptr`. -/
  sCurrentContext : Option ContextRef
  /-- The isolates whose lock the thread holds. -/
  locked : List Isolate
  /-- The thread's stack of entered isolates, the innermost first. -/
  entered : List Isolate
  /-- The entered engine contexts with their isolates, the innermost first. -/
  contexts : List (Isolate × Ptr)
  /-- The isolates disposed of. -/
  disposed : List Isolate
  /-- The engine's own state. -/
  engine : σ
  /-- The calls made so far. -/
  trace : List Event

variable {σ : Type}

/-- Appends a call to the trace. -/
def State.log (s : State σ) (e : Event) : State σ :=
  { s with trace := s.trace ++ [e] }

/-- A `v8::Locker` object: its isolate, and whether its constructor took the lock (it does
not when the thread holds the lock already). `Enter` makes the object with `new` and
`Exit` deletes it; it is carried here by value, its address plays no part. -/
structure Locker where
  isolate : Isolate
  has_lock : Bool
  deriving DecidableEq, Repr

/-- The constructor `v8::Locker(isolate)`, as seen by the one thread modelled (it never has
to wait). -/
def Locker.ctor (isolate : Isolate) (s : State σ) : Locker × State σ :=
  if isolate ∈ s.locked then
    ({ isolate := isolate, has_lock := false }, s.log (.lockerCtor isolate))
  else
    ({ isolate := isolate, has_lock := true },
      { s.log (.lockerCtor isolate) with locked := isolate :: s.locked })

/-- The destructor of `v8::Locker`: unlocks when the constructor locked. -/
def Locker.dtor (locker : Locker) (s : State σ) : State σ :=
  if locker.has_lock then
    { s.log (.lockerDtor locker.isolate) with locked := s.locked.erase locker.isolate }
  else s.log (.lockerDtor locker.isolate)

/-- `isolate->Enter()`, also the constructor of `v8::Isolate::Scope`. -/
def Isolate.Enter (isolate : Isolate) (s : State σ) : State σ :=
  { s.log (.isolateEnter isolate) with entered := isolate :: s.entered }

/-- `isolate->Exit()`, also the destructor of `v8::Isolate::Scope`. -/
def Isolate.Exit (isolate : Isolate) (s : State σ) : State σ :=
  { s.log (.isolateExit isolate) with entered := s.entered.tail }

/-- `isolate->Dispose()`. -/
def Isolate.Dispose (isolate : Isolate) (s : State σ) : State σ :=
  { s.log (.isolateDispose isolate) with disposed := isolate :: s.disposed }

/-- `Local<Context>::New(isolate, *mContext)->Enter()`. -/
def Context.Enter (isolate : Isolate) (context : Ptr) (s : State σ) : State σ :=
  { s.log (.contextEnter isolate context) with contexts := (isolate, context) :: s.contexts }

/-- `Local<Context>::New(isolate, *mContext)->Exit()`: the engine leaves the context when
it is the one the isolate entered last, and leaves nothing otherwise. -/
def Context.Exit (isolate : Isolate) (context : Ptr) (s : State σ) : State σ :=
  if s.contexts.find? (fun c => c.1 == isolate) = some (isolate, context) then
    { s.log (.contextExit isolate context) with contexts := s.contexts.erase (isolate, context) }
  else s.log (.contextExit isolate context)

/-- C++ `delete p` on a native object. -/
def State.free (s : State σ) (p : Ptr) : State σ :=
  { s with heap := s.heap.filter (fun q => q != p) }

/-- `JavascriptContext::JavascriptContext()` (lines 135-154) run on the new object `this`;
`newIsolate` is what `v8::Isolate::New` returns. -/
def JavascriptContext.ctor (A : Allocator) (this : ContextRef) (newIsolate : Isolate)
    (s : State σ) : State σ :=
  let isolate := newIsolate
  let s := s.log (.isolateNew isolate)
  let (v8ThreadLock, s) := Locker.ctor isolate s
  let s := Isolate.Enter isolate s
  let s := s.log (.setFatalErrorHandler isolate)
  let mExternals : Dictionary := []
  let mContext := A.alloc s.heap
  let s := { s.log (.contextNew isolate mContext) with heap := mContext :: s.heap }
  let object : JavascriptContext :=
    { isolate := isolate, mContext := mContext, mExternals := mExternals }
  let s := { s with objects := Function.update s.objects this object }
  let s := Isolate.Exit isolate s
  Locker.dtor v8ThreadLock s

/-- `delete wrapped.Pointer` (line 164): the native `JavascriptExternal` is destroyed. -/
def deleteExternal (s : State σ) (pointer : Ptr) : State σ :=
  (s.log (.deleteExternal pointer)).free pointer

/-- `JavascriptContext::~JavascriptContext()` (lines 158-170). -/
def JavascriptContext.dtor (this : ContextRef) (s : State σ) : State σ :=
  let c := s.objects this
  let (v8ThreadLock, s) := Locker.ctor c.isolate s
  let s := Isolate.Enter c.isolate s
  let s := c.mExternals.Values.foldl deleteExternal s
  let s := (s.log (.deleteContext c.mContext)).free c.mContext
  let s := s.log (.deleteExternals this)
  let s := Isolate.Exit c.isolate s
  let s := Locker.dtor v8ThreadLock s
  if c.isolate ≠ NULL then Isolate.Dispose c.isolate s else s

/-- `JavascriptContext::GetCurrent` (lines 325-329). -/
def JavascriptContext.GetCurrent (s : State σ) : Option ContextRef :=
  s.sCurrentContext

/-- `JavascriptContext::Enter` (lines 341-351): the locker and `old_context`. -/
def JavascriptContext.Enter (this : ContextRef) (s : State σ) :
    Locker × Option ContextRef × State σ :=
  let (locker, s) := Locker.ctor (s.objects this).isolate s
  let s := Isolate.Enter (s.objects this).isolate s
  let old_context := s.sCurrentContext
  let s := { s with sCurrentContext := some this }
  let s := Context.Enter (s.objects this).isolate (s.objects this).mContext s
  (locker, old_context, s)

/-- `JavascriptContext::Exit` (lines 355-365). -/
def JavascriptContext.Exit (this : ContextRef) (locker : Locker)
    (old_context : Option ContextRef) (s : State σ) : State σ :=
  let s := Context.Exit (s.objects this).isolate (s.objects this).mContext s
  let s := { s with sCurrentContext := old_context }
  let s := Isolate.Exit (s.objects this).isolate s
  Locker.dtor locker s

/-- `JavascriptContext::WrapObject` (lines 378-393). -/
def JavascriptContext.WrapObject (cmp : EqualityComparer) (A : Allocator) (this : ContextRef)
    (iObject : HostObject) (s : State σ) : Ptr × State σ :=
  match (s.objects this).mExternals.TryGetValue cmp iObject with
  | some pointer => (pointer, s)
  | none =>
    let external := A.alloc s.heap
    let s := { s with heap := external :: s.heap }
    let mExternals := (s.objects this).mExternals.set_Item cmp iObject external
    let object : JavascriptContext := { s.objects this with mExternals := mExternals }
    let s := { s with objects := Function.update s.objects this object }
    (external, s)

/-- Modelled from the spec: the class `JavascriptScope`, which JavascriptContext.cpp uses
and JavascriptContext.h declares. The spec's Scope Guard "enters an isolate/context pair
for the duration of an operation and restores the previously active context on exit":
the constructor calls `Enter` and keeps what it returns. -/
structure JavascriptScope where
  context : ContextRef
  locker : Locker
  oldContext : Option ContextRef
  deriving DecidableEq, Repr

/-- Modelled from the spec: the constructor `JavascriptScope(context)`. -/
def JavascriptScope.ctor (context : ContextRef) (s : State σ) : JavascriptScope × State σ :=
  let (locker, oldContext, s) := JavascriptContext.Enter context s
  ({ context := context, locker := locker, oldContext := oldContext }, s)

/-- Modelled from the spec: the destructor of `JavascriptScope`, which C++ runs when the
scope is left, by `return` and by a thrown exception alike: `Exit` with what `Enter`
returned. -/
def JavascriptScope.dtor (scope : JavascriptScope) (s : State σ) : State σ :=
  JavascriptContext.Exit scope.context scope.locker scope.oldContext s

/-- `CompileScript` (lines 414-441); `resource_name` is `none` for `NULL`. An `error` is
the exception thrown. -/
def CompileScript (E : Engine σ) (source_code : String) (resource_name : Option String)
    (s : State σ) : Except JavascriptException Script × State σ :=
  let (script, engine) :=
    match resource_name with
    | none => E.Compile source_code none s.engine
    | some resource => E.Compile source_code (some resource) s.engine
  let s := { s.log (.compile source_code resource_name) with engine := engine }
  match script with
  | none => (.error { tryCatch := E.caught s.engine }, s)
  | some script => (.ok script, s)

/-- `WrapObject` called for each pair of a context and a host object, in order. -/
def wrapEach (cmp : EqualityComparer) (A : Allocator) :
    List (ContextRef × HostObject) → State σ → State σ
  | [], s => s
  | (context, iObject) :: rest, s =>
    wrapEach cmp A rest (JavascriptContext.WrapObject cmp A context iObject s).2

/-- `WrapObject` called on `this` for each host object, in order: the handles returned. -/
def wrapAll (cmp : EqualityComparer) (A : Allocator) (this : ContextRef) :
    List HostObject → State σ → List Ptr × State σ
  | [], s => ([], s)
  | iObject :: rest, s =>
    let (pointer, s) := JavascriptContext.WrapObject cmp A this iObject s
    let (pointers, s) := wrapAll cmp A this rest s
    (pointer :: pointers, s)

/-- Modelled from the spec: the host callbacks made while a script executes, which are
code of `JavascriptInterop` and not of JavascriptContext.cpp. The conversion
`ToEngineValue(hostObject)` "may internally call `WrapObject`", and "callbacks
originating from the engine ... resolve back to the owning context" through the current
context: each host object handed to the engine is wrapped by `WrapObject` on the context
`GetCurrent` gives, and none is when there is no current context. -/
def hostCallbacks (cmp : EqualityComparer) (A : Allocator) (exposed : List HostObject)
    (s : State σ) : State σ :=
  match JavascriptContext.GetCurrent s with
  | none => s
  | some context => wrapEach cmp A (exposed.map (fun iObject => (context, iObject))) s

/-- `(*compiledScript)->Run()` (line 259): the engine executes the script, making the host
callbacks the script calls for. -/
def Script.Run (cmp : EqualityComparer) (A : Allocator) (E : Engine σ)
    (compiledScript : Script) (s : State σ) : Option Value × State σ :=
  let exposed := E.exposed compiledScript s.engine
  let (ret, engine) := E.Run compiledScript s.engine
  let s := { s.log (.run compiledScript) with engine := engine }
  (ret, hostCallbacks cmp A exposed s)

/-- `JavascriptContext::Run(iScript)` (lines 245-266). The result is what the caller
receives, a value or the exception thrown, with the state once `scope` is destroyed. -/
def JavascriptContext.Run (cmp : EqualityComparer) (A : Allocator) (E : Engine σ)
    (this : ContextRef) (iScript : String) (s : State σ) :
    Except JavascriptException HostValue × State σ :=
  let (scope, s) := JavascriptScope.ctor this s
  let (result, s) : Except JavascriptException HostValue × State σ :=
    match CompileScript E iScript none s with
    | (.error e, s) => (.error e, s)
    | (.ok compiledScript, s) =>
      match Script.Run cmp A E compiledScript s with
      | (none, s) => (.error { tryCatch := E.caught s.engine }, s)
      | (some ret, s) => (.ok (E.ConvertFromV8 ret), s)
  (result, JavascriptScope.dtor scope s)

/-- `JavascriptContext::Run(iScript, iScriptResourceName)` (lines 270-293). -/
def JavascriptContext.Run2 (cmp : EqualityComparer) (A : Allocator) (E : Engine σ)
    (this : ContextRef) (iScript : String) (iScriptResourceName : String) (s : State σ) :
    Except JavascriptException HostValue × State σ :=
  let (scope, s) := JavascriptScope.ctor this s
  let (result, s) : Except JavascriptException HostValue × State σ :=
    match CompileScript E iScript (some iScriptResourceName) s with
    | (.error e, s) => (.error e, s)
    | (.ok compiledScript, s) =>
      match Script.Run cmp A E compiledScript s with
      | (none, s) => (.error { tryCatch := E.caught s.engine }, s)
      | (some ret, s) => (.ok (E.ConvertFromV8 ret), s)
  (result, JavascriptScope.dtor scope s)

/-- The context has not been destroyed: its global-context handle is live and its isolate
has not been disposed of. This is what an operation on the context requires. -/
def JavascriptContext.Usable (this : ContextRef) (s : State σ) : Prop :=
  (s.objects this).mContext ∈ s.heap ∧ (s.objects this).isolate ∉ s.disposed

/-- A well-bracketed sequence of `Enter`/`Exit` pairs: empty, or a pair on `context` around
a well-bracketed sequence, followed by a well-bracketed sequence. -/
inductive Bracketed where
  | done
  | pair (context : ContextRef) (inside : Bracketed) (after : Bracketed)
  deriving Repr

/-- Runs a well-bracketed sequence: each `Exit` gets what its `Enter` returned. -/
def Bracketed.run : Bracketed → State σ → State σ
  | .done, s => s
  | .pair context inside after, s =>
    let (locker, old_context, s) := JavascriptContext.Enter context s
    let s := inside.run s
    let s := JavascriptContext.Exit context locker old_context s
    after.run s

/-- The two overloads of `Run` taken together: `resource` is `none` for `Run(iScript)` and
the resource name for `Run(iScript, iScriptResourceName)`. -/
def JavascriptContext.RunEither (cmp : EqualityComparer) (A : Allocator) (E : Engine σ)
    (this : ContextRef) (iScript : String) (resource : Option String) (s : State σ) :
    Except JavascriptException HostValue × State σ :=
  match resource with
  | none => JavascriptContext.Run cmp A E this iScript s
  | some iScriptResourceName =>
    JavascriptContext.Run2 cmp A E this iScript iScriptResourceName s

/-! ## Fatal errors -/

/-- A `FatalErrorHandler^` delegate that is not `nullptr`. -/
abbrev FatalErrorHandler := Nat

/-- What the fatal-error path does that can be observed. -/
inductive Effect where
  | handlerInvoked (handler : FatalErrorHandler) (location message : String)
  | consoleWriteLine (line : String)
  | raiseSIGABRT
  deriving DecidableEq, Repr

/-- The process as the fatal-error path sees it: the static field `fatalErrorHandler`
(`none` for `nullptr`), what has been done so far, in order, and whether the process has
been ended. -/
structure Process where
  fatalErrorHandler : Option FatalErrorHandler
  effects : List Effect
  aborted : Bool
  deriving DecidableEq, Repr

/-- Modelled from the spec: the static field `fatalErrorHandler` is declared in
JavascriptContext.h; "if unset, a default action (log to standard output) runs", so a
process that has just started holds `nullptr` in it. -/
def Process.start : Process :=
  { fatalErrorHandler := none, effects := [], aborted := false }

/-- `JavascriptContext::SetFatalErrorHandler` (lines 174-177). -/
def JavascriptContext.SetFatalErrorHandler (handler : Option FatalErrorHandler)
    (p : Process) : Process :=
  { p with fatalErrorHandler := handler }

/-- `JavascriptContext::FatalErrorCallbackMember` (lines 119-133). -/
def JavascriptContext.FatalErrorCallbackMember (location message : String) (p : Process) :
    Process :=
  let location_str := location
  let message_str := message
  match p.fatalErrorHandler with
  | some handler =>
    { p with effects := p.effects ++ [.handlerInvoked handler location_str message_str] }
  | none =>
    { p with effects := p.effects ++
        [.consoleWriteLine location_str, .consoleWriteLine message_str] }

/-- `raise(SIGABRT)`, "Exit immediately": the process ends there, control does not come
back to the caller. -/
def raiseSIGABRT (p : Process) : Process :=
  { p with effects := p.effects ++ [.raiseSIGABRT], aborted := true }

/-- `FatalErrorCallback` (lines 113-117), the function the engine calls on a fatal error. -/
def FatalErrorCallback (location message : String) (p : Process) : Process :=
  let p := JavascriptContext.FatalErrorCallbackMember location message p
  raiseSIGABRT p

/-- The stored hash codes are the keys' hash codes and no two entries have the same key. -/
def KeysDistinct (cmp : EqualityComparer) (d : Dictionary) : Prop :=
  (∀ e ∈ d, e.hashCode = cmp.GetHashCode e.key) ∧ (d.map (·.key)).Nodup

/-- The handles in the registry of `this` are live and pairwise different. -/
def HandlesDistinct (this : ContextRef) (s : State σ) : Prop :=
  (∀ e ∈ (s.objects this).mExternals, e.value ∈ s.heap) ∧
    ((s.objects this).mExternals.map (·.value)).Nodup

/-! ## Concrete inputs -/

/-- The comparison of a class that does not override `Equals`: reference equality. -/
def referenceEquality : EqualityComparer where
  Equals a b := a == b
  GetHashCode a := a

/-- A comparison by value, as a class overriding `Equals` and `GetHashCode` gives it (boxed
numbers, strings): here the objects 2n and 2n+1 are two objects holding the same value n. -/
def valueEquality : EqualityComparer where
  Equals a b := a / 2 == b / 2
  GetHashCode a := a / 2

/-- The comparison of a class whose `Equals` is not reflexive: it answers false for every
pair of objects, an object and itself included. -/
def neverEqual : EqualityComparer where
  Equals _ _ := false
  GetHashCode a := a

/-- Reference equality once the objects' fields have changed, for a class that computes
`GetHashCode` from its fields: every object's hash code is one more than
`referenceEquality` gives. -/
def referenceEqualityRehashed : EqualityComparer where
  Equals a b := a == b
  GetHashCode a := a + 1

/-- The comparison of a class whose `Equals` is reflexive and transitive but not
symmetric: an object is held equal to those not below it. -/
def orderEquality : EqualityComparer where
  Equals a b := decide (a ≤ b)
  GetHashCode _ := 0

/-- The comparison of a class whose `Equals` is reflexive and symmetric but not
transitive: objects are held equal when they differ by one at most. -/
def nearEquality : EqualityComparer where
  Equals a b := decide (a ≤ b + 1 ∧ b ≤ a + 1)
  GetHashCode _ := 0

/-- An allocator that hands out the address after the highest live one. -/
def bumpAllocator : Allocator where
  alloc live := live.foldr max 0 + 1
  fresh := by
    intro live h
    have key : ∀ (l : List Nat) (x : Nat), x ∈ l → x ≤ l.foldr max 0 := by
      intro l
      induction l with
      | nil => intro x hx; cases hx
      | cons y l ih =>
        intro x hx
        rcases List.mem_cons.1 hx with rfl | hx
        · exact Nat.le_max_left _ _
        · exact Nat.le_trans (ih x hx) (Nat.le_max_right _ _)
    have := key live _ h
    simp only at this
    omega

/-- A process in which no context has been made yet, with an engine state of one point. -/
def State.boot : State Unit where
  objects := fun _ => { isolate := NULL, mContext := NULL, mExternals := [] }
  heap := []
  sCurrentContext := none
  locked := []
  entered := []
  contexts := []
  disposed := []
  engine := ()
  trace := []

/-- An engine that cannot compile the source `syntax (((`; compiles the source
`host.make(); throw 1` to script 1, whose execution has a callback hand host object 5 to
the engine and then fails; and compiles every other source to script 0, which runs to the
value 42 with no callback. -/
def sampleEngine : Engine Unit where
  Compile source _ _ :=
    (if source = "syntax (((" then none
      else if source = "host.make(); throw 1" then some 1 else some 0, ())
  Run script _ := (if script = 1 then none else some 42, ())
  exposed script _ := if script = 1 then [5] else []
  caught _ := 7
  ConvertFromV8 v := v

/-! ## Properties -/

/-! ### Locating the engine's resource files -/

section Paths

theorem strrchr_eq_none {s : List Char} {c : Char} (h : c ∉ s) : strrchr s c = none := by
  induction s with
  | nil => rfl
  | cons x rest ih =>
    have hx : x ≠ c := fun e => h (e ▸ List.mem_cons_self _ _)
    have hr : c ∉ rest := fun m => h (List.mem_cons_of_mem _ m)
    simp [strrchr, ih hr, hx]

theorem strrchr_append_cons (dir rest : List Char) (c : Char) (h : c ∉ rest) :
    strrchr (dir ++ c :: rest) c = some dir.length := by
  induction dir with
  | nil => simp [strrchr, strrchr_eq_none h]
  | cons x dir ih => simp [strrchr, ih]

theorem strrchr_isSome {s : List Char} {c : Char} (h : c ∈ s) : ∃ k, strrchr s c = some k := by
  induction s with
  | nil => simp at h
  | cons x rest ih =>
    cases hr : strrchr rest c with
    | some i => exact ⟨i + 1, by simp [strrchr, hr]⟩
    | none =>
      by_cases hx : x = c
      · exact ⟨0, by simp [strrchr, hr, hx]⟩
      · rcases List.mem_cons.1 h with e | m
        · exact absurd e.symm hx
        · obtain ⟨k, hk⟩ := ih m
          rw [hr] at hk
          cases hk

/-- `strrchr` points at an occurrence of the character after which there is none. -/
theorem strrchr_spec {s : List Char} {c : Char} {k : Nat} (h : strrchr s c = some k) :
    k < s.length ∧ s = s.take k ++ c :: s.drop (k + 1) ∧ c ∉ s.drop (k + 1) := by
  induction s generalizing k with
  | nil => simp [strrchr] at h
  | cons x rest ih =>
    cases hr : strrchr rest c with
    | some i =>
      simp only [strrchr, hr, Option.some.injEq] at h
      subst h
      obtain ⟨h1, h2, h3⟩ := ih hr
      refine ⟨by simp; omega, ?_, by simpa using h3⟩
      simp only [List.take_succ_cons, List.drop_succ_cons, List.cons_append]
      rw [← h2]
    | none =>
      by_cases hx : x = c
      · simp only [strrchr, hr, hx, if_true, Option.some.injEq] at h
        subst h
        subst hx
        refine ⟨by simp, by simp, ?_⟩
        intro hm
        simp only [Nat.zero_add, List.drop_succ_cons, List.drop_zero] at hm
        obtain ⟨k, hk⟩ := strrchr_isSome hm
        rw [hr] at hk
        cases hk
      · simp [strrchr, hr, hx] at h

theorem strcpy_s_some (buf : CharBuf) (k size : Nat) (src : List Char) (h : src.length < size) :
    strcpy_s buf (some k) size src =
      .ok { str := buf.str.take k ++ src, written := max buf.written (k + src.length + 1) } := by
  simp [strcpy_s, h]

/-- What `GetPathsForInitialisation` returns for a module path whose last backslash is at
offset `k` and whose length passes the checks. -/
theorem GetPaths_ok (p : List Char) (canOpen : List Char → Bool) (k : Nat)
    (hk : strrchr p '\\' = some k) (hlen : p.length ≤ MAX_PATH - 20) :
    GetPathsForInitialisation ⟨true, some p, canOpen⟩ = .ok
      { dll_path := ⟨p, p.length + 1⟩
        natives_blob_bin_path :=
          if canOpen (p.take k ++ "\\v8_natives_blob.bin".toList) then
            ⟨p.take k ++ "\\v8_natives_blob.bin".toList, max (p.length + 1) (k + 21)⟩
          else ⟨p.take k ++ "\\natives_blob.bin".toList, max (max (p.length + 1) (k + 21)) (k + 18)⟩
        snapshot_blob_bin_path :=
          if canOpen (p.take k ++ "\\v8_snapshot_blob.bin".toList) then
            ⟨p.take k ++ "\\v8_snapshot_blob.bin".toList, max (p.length + 1) (k + 22)⟩
          else ⟨p.take k ++ "\\snapshot_blob.bin".toList,
            max (max (p.length + 1) (k + 22)) (k + 19)⟩ } := by
  obtain ⟨hklt, -, -⟩ := strrchr_spec hk
  have hlen2 : p.length < MAX_PATH := by simp only [MAX_PATH] at hlen ⊢; omega
  have hpos : ¬ (p.length = 0 ∨ p.length ≥ MAX_PATH) := by omega
  have hgt : ¬ p.length > MAX_PATH - 20 := by omega
  have htk : (p.take k).length = k := by simp; omega
  have h2 : strrchr (p.take k ++ "\\v8_natives_blob.bin".toList) '\\' = some k := by
    have := strrchr_append_cons (p.take k) "v8_natives_blob.bin".toList '\\' (by decide)
    rw [htk] at this
    exact this
  have h3 : strrchr (p.take k ++ "\\v8_snapshot_blob.bin".toList) '\\' = some k := by
    have := strrchr_append_cons (p.take k) "v8_snapshot_blob.bin".toList '\\' (by decide)
    rw [htk] at this
    exact this
  have htt : ∀ t : List Char, (p.take k ++ t).take k = p.take k := by
    intro t
    have := List.take_left (p.take k) t
    rw [htk] at this
    exact this
  simp only [GetPathsForInitialisation, GetModuleFileNameA, if_pos hlen2, Bool.not_true,
    Bool.false_eq_true, if_false, if_neg hpos, if_neg hgt, bind, Except.bind, pure, Except.pure,
    strcpy_s_some _ 0 MAX_PATH p hlen2, List.take_zero, List.nil_append, hk,
    strcpy_s_some _ k 21 "\\v8_natives_blob.bin".toList (by decide),
    strcpy_s_some _ k 22 "\\v8_snapshot_blob.bin".toList (by decide), h2, h3,
    strcpy_s_some _ k 18 "\\natives_blob.bin".toList (by decide),
    strcpy_s_some _ k 19 "\\snapshot_blob.bin".toList (by decide), htt]
  have l1 : "\\v8_natives_blob.bin".toList.length = 20 := by decide
  have l2 : "\\v8_snapshot_blob.bin".toList.length = 21 := by decide
  have l3 : "\\natives_blob.bin".toList.length = 17 := by decide
  have l4 : "\\snapshot_blob.bin".toList.length = 18 := by decide
  simp only [l1, l2, l3, l4, Nat.zero_add, Nat.zero_max]
  split_ifs <;> rfl

/-- C8. For a module path `dir\file` (no backslash in `file`) of at most `MAX_PATH - 20`
characters and any file system, `GetPathsForInitialisation` returns; the natives path is
`dir\v8_natives_blob.bin` when that file can be opened and `dir\natives_blob.bin`
otherwise, the snapshot path is `dir\v8_snapshot_blob.bin` when that file can be opened
and `dir\snapshot_blob.bin` otherwise: neither choice looks at the other file. -/
theorem GetPaths_resolution (dir file : List Char) (fs : List Char → Bool)
    (hfile : '\\' ∉ file) (hlen : (dir ++ '\\' :: file).length ≤ MAX_PATH - 20) :
    ∃ r, GetPathsForInitialisation ⟨true, some (dir ++ '\\' :: file), fs⟩ = .ok r ∧
      r.dll_path.str = dir ++ '\\' :: file ∧
      r.natives_blob_bin_path.str =
        (if fs (dir ++ "\\v8_natives_blob.bin".toList) then dir ++ "\\v8_natives_blob.bin".toList
         else dir ++ "\\natives_blob.bin".toList) ∧
      r.snapshot_blob_bin_path.str =
        (if fs (dir ++ "\\v8_snapshot_blob.bin".toList) then
          dir ++ "\\v8_snapshot_blob.bin".toList
         else dir ++ "\\snapshot_blob.bin".toList) := by
  have hk := strrchr_append_cons dir file '\\' hfile
  have ht : (dir ++ '\\' :: file).take dir.length = dir := List.take_left _ _
  refine ⟨_, GetPaths_ok _ fs _ hk hlen, rfl, ?_, ?_⟩
  · simp only [ht]; split_ifs <;> rfl
  · simp only [ht]; split_ifs <;> rfl

/-- C8 at a concrete input: the module `C:\bin\Noesis.Javascript.dll`, with
`v8_natives_blob.bin` present in `C:\bin` and `v8_snapshot_blob.bin` absent. -/
theorem GetPaths_resolution_witness :
    ∃ r, GetPathsForInitialisation
        ⟨true, some ("C:\\bin".toList ++ '\\' :: "Noesis.Javascript.dll".toList),
          fun path => path == "C:\\bin\\v8_natives_blob.bin".toList⟩ = .ok r ∧
      r.natives_blob_bin_path.str = "C:\\bin\\v8_natives_blob.bin".toList ∧
      r.snapshot_blob_bin_path.str = "C:\\bin\\snapshot_blob.bin".toList := by
  obtain ⟨r, h1, -, h3, h4⟩ := GetPaths_resolution "C:\\bin".toList
    "Noesis.Javascript.dll".toList (fun path => path == "C:\\bin\\v8_natives_blob.bin".toList)
    (by decide) (by decide)
  refine ⟨r, h1, ?_, ?_⟩
  · rw [h3]; decide
  · rw [h4]; decide

/-- `GetPathsForInitialisation` returns only when the module handle was found and the
module path has at least one and at most `MAX_PATH - 20` characters. -/
theorem GetPaths_returns_only_checked (env : HostEnv) (path : List Char)
    (hmod : env.moduleFileName = some path) (r : InitPaths)
    (hok : GetPathsForInitialisation env = .ok r) :
    env.moduleHandleFound = true ∧ 0 < path.length ∧ path.length ≤ MAX_PATH - 20 := by
  cases env with
  | mk found name canOpen =>
    simp only at hmod
    subst hmod
    cases found with
    | false => exact absurd hok (by simp [GetPathsForInitialisation, bind, Except.bind, throw,
        throwThe, MonadExceptOf.throw])
    | true =>
      refine ⟨rfl, ?_⟩
      by_cases hlt : path.length < MAX_PATH
      · by_cases hzero : path.length = 0
        · exfalso
          have hnil : path = [] := List.length_eq_zero.mp hzero
          subst hnil
          exact absurd hok (by simp [GetPathsForInitialisation, GetModuleFileNameA, MAX_PATH,
            bind, Except.bind, throw, throwThe, MonadExceptOf.throw, pure, Except.pure])
        · by_cases hlong : path.length > MAX_PATH - 20
          · exfalso
            have hpos : ¬ (path.length = 0 ∨ path.length ≥ MAX_PATH) := by omega
            simp only [GetPathsForInitialisation, GetModuleFileNameA, if_pos hlt, Bool.not_true,
              Bool.false_eq_true, if_false, if_neg hpos, if_pos hlong, bind, Except.bind, pure,
              Except.pure, strcpy_s_some _ 0 MAX_PATH path hlt, throw, throwThe,
              MonadExceptOf.throw] at hok
            exact absurd hok (by simp)
          · exact ⟨by omega, by omega⟩
      · exfalso
        simp only [GetPathsForInitialisation, GetModuleFileNameA, if_neg hlt, Bool.not_true,
          Bool.false_eq_true, if_false, bind, Except.bind, pure,
          Except.pure, throw, throwThe, MonadExceptOf.throw] at hok
        revert hok
        simp [MAX_PATH]

/-- A module path without a backslash makes `strrchr` give the null pointer, which
`strcpy_s` rejects: `GetPathsForInitialisation` does not return. -/
theorem GetPaths_no_separator (path : List Char) (canOpen : List Char → Bool)
    (hsep : '\\' ∉ path) (hpos : 0 < path.length) (hlen : path.length ≤ MAX_PATH - 20) :
    GetPathsForInitialisation ⟨true, some path, canOpen⟩ = .error .invalidParameter := by
  have hlt : path.length < MAX_PATH := by simp only [MAX_PATH] at hlen ⊢; omega
  have hchk : ¬ (path.length = 0 ∨ path.length ≥ MAX_PATH) := by omega
  have hgt : ¬ path.length > MAX_PATH - 20 := by omega
  simp only [GetPathsForInitialisation, GetModuleFileNameA, if_pos hlt, Bool.not_true,
    Bool.false_eq_true, if_false, if_neg hchk, if_neg hgt, bind, Except.bind, pure, Except.pure,
    strcpy_s_some _ 0 MAX_PATH path hlt, List.take_zero, List.nil_append,
    strrchr_eq_none hsep, strcpy_s]

/-- C10. For every module path that names a file (it does not end in a backslash, as
the fully qualified path `GetModuleFileNameA` gives for a module never does) and any file
system: when `GetPathsForInitialisation` returns, the path has n characters with
0 < n < `MAX_PATH` and n at most `MAX_PATH - 20`, and no store into `dll_path`,
`natives_blob_bin_path` or `snapshot_blob_bin_path`, terminating NUL included, goes past
the `MAX_PATH` bytes of the buffer; and it does return whenever the module handle was
found and the path holds a backslash and has at most `MAX_PATH - 20` characters. -/
theorem GetPaths_writes_fit (env : HostEnv) (path : List Char)
    (hmod : env.moduleFileName = some path) (hfile : path.getLast? ≠ some '\\') :
    (∀ r, GetPathsForInitialisation env = .ok r →
      0 < path.length ∧ path.length < MAX_PATH ∧ path.length ≤ MAX_PATH - 20 ∧
      r.dll_path.written ≤ MAX_PATH ∧
      r.natives_blob_bin_path.written ≤ MAX_PATH ∧
      r.snapshot_blob_bin_path.written ≤ MAX_PATH) ∧
    (env.moduleHandleFound = true → '\\' ∈ path → path.length ≤ MAX_PATH - 20 →
      ∃ r, GetPathsForInitialisation env = .ok r) := by
  have henv : ∀ hfound : env.moduleHandleFound = true,
      env = ⟨true, some path, env.canOpen⟩ := by
    intro hfound
    cases env with
    | mk found name canOpen =>
      simp only at hfound hmod
      rw [hfound, hmod]
  refine ⟨?_, ?_⟩
  · intro r hok
    obtain ⟨hfound, hpos, hlen⟩ := GetPaths_returns_only_checked env path hmod r hok
    by_cases hsep : '\\' ∈ path
    · obtain ⟨k, hk⟩ := strrchr_isSome hsep
      obtain ⟨hklt, hsplit, -⟩ := strrchr_spec hk
      have hk1 : k + 1 < path.length := by
        by_contra hcon
        have hdrop : path.drop (k + 1) = [] := List.drop_eq_nil_of_le (by omega)
        rw [hdrop] at hsplit
        apply hfile
        rw [hsplit]
        simp
      rw [henv hfound, GetPaths_ok path env.canOpen k hk hlen] at hok
      have hr := Except.ok.inj hok
      subst hr
      refine ⟨hpos, ?_, hlen, ?_, ?_, ?_⟩
      · simp only [MAX_PATH] at hlen ⊢; omega
      · simp only [MAX_PATH] at hlen ⊢; omega
      · simp only [MAX_PATH] at hlen ⊢
        split_ifs <;> simp only [] <;> omega
      · simp only [MAX_PATH] at hlen ⊢
        split_ifs <;> simp only [] <;> omega
    · rw [henv hfound, GetPaths_no_separator path env.canOpen hsep hpos hlen] at hok
      exact absurd hok (by simp)
  · intro hfound hsep hlen
    obtain ⟨k, hk⟩ := strrchr_isSome hsep
    rw [henv hfound]
    exact ⟨_, GetPaths_ok path env.canOpen k hk hlen⟩

/-- C10 at a concrete input: the module `C:\bin\Noesis.Javascript.dll` and a file system
on which nothing can be opened. -/
theorem GetPaths_writes_fit_witness :
    ∃ r, GetPathsForInitialisation
        ⟨true, some "C:\\bin\\Noesis.Javascript.dll".toList, fun _ => false⟩ = .ok r ∧
      r.dll_path.written ≤ MAX_PATH ∧
      r.natives_blob_bin_path.written ≤ MAX_PATH ∧
      r.snapshot_blob_bin_path.written ≤ MAX_PATH := by
  have h := GetPaths_writes_fit
    ⟨true, some "C:\\bin\\Noesis.Javascript.dll".toList, fun _ => false⟩
    "C:\\bin\\Noesis.Javascript.dll".toList rfl (by decide)
  obtain ⟨r, hr⟩ := h.2 rfl (by decide) (by decide)
  exact ⟨r, hr, (h.1 r hr).2.2.2⟩

end Paths

/-! ### The engine's primitives -/

section Primitives

variable {σ : Type}

/-- The constructor of `v8::Locker` in one equation. -/
theorem Locker_ctor_eq (isolate : Isolate) (s : State σ) :
    Locker.ctor isolate s =
      ({ isolate := isolate, has_lock := decide (isolate ∉ s.locked) },
        { s with
          locked := if isolate ∈ s.locked then s.locked else isolate :: s.locked
          trace := s.trace ++ [.lockerCtor isolate] }) := by
  unfold Locker.ctor
  split <;> simp [State.log, *]

/-- The destructor of `v8::Locker` in one equation. -/
theorem Locker_dtor_eq (locker : Locker) (s : State σ) :
    Locker.dtor locker s =
      { s with
        locked := if locker.has_lock then s.locked.erase locker.isolate else s.locked
        trace := s.trace ++ [.lockerDtor locker.isolate] } := by
  unfold Locker.dtor
  split <;> simp [State.log, *]

/-- `Context::Exit` in one equation. -/
theorem Context_Exit_eq (isolate : Isolate) (context : Ptr) (s : State σ) :
    Context.Exit isolate context s =
      { s with
        contexts :=
          if s.contexts.find? (fun c => c.1 == isolate) = some (isolate, context) then
            s.contexts.erase (isolate, context)
          else s.contexts
        trace := s.trace ++ [.contextExit isolate context] } := by
  unfold Context.Exit
  split <;> simp [State.log, *]

end Primitives

/-! ### The wrapper registry -/

section Registry

variable {σ : Type}

theorem Dictionary.set_Item_of_not_found (cmp : EqualityComparer) (d : Dictionary)
    (key : HostObject) (value : Ptr) (h : d.FindEntry cmp key = none) :
    d.set_Item cmp key value =
      { hashCode := cmp.GetHashCode key, key := key, value := value } :: d := by
  simp [Dictionary.set_Item, h]

theorem Dictionary.TryGetValue_eq_none {cmp : EqualityComparer} {d : Dictionary}
    {key : HostObject} : d.TryGetValue cmp key = none ↔ d.FindEntry cmp key = none := by
  simp [Dictionary.TryGetValue]

theorem WrapObject_found (cmp : EqualityComparer) (A : Allocator) (this : ContextRef)
    (o : HostObject) (s : State σ) (e : Entry)
    (h : (s.objects this).mExternals.FindEntry cmp o = some e) :
    JavascriptContext.WrapObject cmp A this o s = (e.value, s) := by
  simp [JavascriptContext.WrapObject, Dictionary.TryGetValue, h]

theorem WrapObject_added (cmp : EqualityComparer) (A : Allocator) (this : ContextRef)
    (o : HostObject) (s : State σ)
    (h : (s.objects this).mExternals.FindEntry cmp o = none) :
    JavascriptContext.WrapObject cmp A this o s =
      (A.alloc s.heap,
        { s with
          heap := A.alloc s.heap :: s.heap
          objects := Function.update s.objects this
            { s.objects this with
              mExternals :=
                { hashCode := cmp.GetHashCode o, key := o, value := A.alloc s.heap } ::
                  (s.objects this).mExternals } }) := by
  simp [JavascriptContext.WrapObject, Dictionary.TryGetValue, h,
    Dictionary.set_Item_of_not_found]

/-- What one call of `WrapObject` on context `c` does to the registry of `this` and to
the native heap. -/
theorem WrapObject_step (cmp : EqualityComparer) (A : Allocator) (this c : ContextRef)
    (x : HostObject) (s : State σ) :
    ((JavascriptContext.WrapObject cmp A c x s).2 = s) ∨
    ((s.objects c).mExternals.FindEntry cmp x = none ∧
      (JavascriptContext.WrapObject cmp A c x s).1 = A.alloc s.heap ∧
      (JavascriptContext.WrapObject cmp A c x s).2.heap = A.alloc s.heap :: s.heap ∧
      (((JavascriptContext.WrapObject cmp A c x s).2.objects this) = s.objects this ∧ c ≠ this ∨
       ((JavascriptContext.WrapObject cmp A c x s).2.objects this) =
          { s.objects this with
            mExternals :=
              { hashCode := cmp.GetHashCode x, key := x, value := A.alloc s.heap } ::
                (s.objects this).mExternals } ∧ c = this)) := by
  cases h : (s.objects c).mExternals.FindEntry cmp x with
  | some e => left; rw [WrapObject_found cmp A c x s e h]
  | none =>
    right
    rw [WrapObject_added cmp A c x s h]
    refine ⟨rfl, rfl, rfl, ?_⟩
    by_cases hc : c = this
    · right; subst hc; simp
    · left; exact ⟨by simp [Function.update, Ne.symm hc], hc⟩

theorem FindEntry_some {cmp : EqualityComparer} {d : Dictionary} {o : HostObject} {e : Entry}
    (h : d.FindEntry cmp o = some e) : e ∈ d ∧ e.isMatch cmp o = true := by
  unfold Dictionary.FindEntry at h
  exact ⟨List.mem_of_find?_eq_some h, List.find?_some h⟩

theorem FindEntry_none {cmp : EqualityComparer} {d : Dictionary} {o : HostObject}
    (h : d.FindEntry cmp o = none) : ∀ e ∈ d, e.isMatch cmp o = false := by
  unfold Dictionary.FindEntry at h
  intro e he
  have := List.find?_eq_none.1 h e he
  simpa using this

/-- A lookup that succeeds keeps its answer when `WrapObject` is called for any object on
any context. -/
theorem FindEntry_stable (cmp : EqualityComparer) (hcmp : cmp.Lawful) (A : Allocator)
    (this c : ContextRef) (x o : HostObject) (s : State σ) (e : Entry)
    (h : (s.objects this).mExternals.FindEntry cmp o = some e) :
    ((JavascriptContext.WrapObject cmp A c x s).2.objects this).mExternals.FindEntry cmp o =
      some e := by
  rcases WrapObject_step cmp A this c x s with hs | ⟨hnone, -, -, ⟨ho, -⟩ | ⟨ho, hc⟩⟩
  · rw [hs]; exact h
  · rw [ho]; exact h
  · rw [ho]
    subst hc
    obtain ⟨hmem, hm⟩ := FindEntry_some h
    have hx := FindEntry_none hnone e hmem
    simp only [Entry.isMatch, Bool.and_eq_true, beq_iff_eq] at hm
    have hnew : Entry.isMatch cmp o
        { hashCode := cmp.GetHashCode x, key := x, value := A.alloc s.heap } = false := by
      by_contra hcon
      simp only [Entry.isMatch, Bool.not_eq_false, Bool.and_eq_true, beq_iff_eq] at hcon
      have : e.isMatch cmp x = true := by
        simp only [Entry.isMatch, Bool.and_eq_true, beq_iff_eq]
        exact ⟨hm.1.trans hcon.1.symm, hcmp.trans _ _ _ hm.2 (hcmp.symm _ _ hcon.2)⟩
      rw [hx] at this
      cases this
    simp only [Dictionary.FindEntry, List.find?_cons, hnew]
    exact h

theorem FindEntry_stable_wrapEach (cmp : EqualityComparer) (hcmp : cmp.Lawful) (A : Allocator)
    (this : ContextRef) (o : HostObject) (e : Entry) (calls : List (ContextRef × HostObject)) :
    ∀ s : State σ, (s.objects this).mExternals.FindEntry cmp o = some e →
      ((wrapEach cmp A calls s).objects this).mExternals.FindEntry cmp o = some e := by
  induction calls with
  | nil => intro s h; exact h
  | cons call rest ih =>
    intro s h
    obtain ⟨c, x⟩ := call
    exact ih _ (FindEntry_stable cmp hcmp A this c x o s e h)

/-- After `WrapObject(o)` a lookup of `o` succeeds and gives the handle returned. -/
theorem WrapObject_registered (cmp : EqualityComparer) (hcmp : cmp.Lawful) (A : Allocator)
    (this : ContextRef) (o : HostObject) (s : State σ) :
    ∃ e, ((JavascriptContext.WrapObject cmp A this o s).2.objects this).mExternals.FindEntry
        cmp o = some e ∧ e.value = (JavascriptContext.WrapObject cmp A this o s).1 := by
  cases h : (s.objects this).mExternals.FindEntry cmp o with
  | some e => exact ⟨e, by rw [WrapObject_found cmp A this o s e h]; exact h, by
      rw [WrapObject_found cmp A this o s e h]⟩
  | none =>
    refine ⟨{ hashCode := cmp.GetHashCode o, key := o, value := A.alloc s.heap }, ?_, ?_⟩
    · rw [WrapObject_added cmp A this o s h]
      simp [Dictionary.FindEntry, Entry.isMatch, hcmp.refl]
    · rw [WrapObject_added cmp A this o s h]

end Registry

section RegistryInvariants

variable {σ : Type}

theorem KeysDistinct_step (cmp : EqualityComparer) (hcmp : cmp.Lawful) (A : Allocator)
    (this c : ContextRef) (x : HostObject) (s : State σ)
    (h : KeysDistinct cmp (s.objects this).mExternals) :
    KeysDistinct cmp ((JavascriptContext.WrapObject cmp A c x s).2.objects this).mExternals := by
  rcases WrapObject_step cmp A this c x s with hs | ⟨hnone, -, -, ⟨ho, -⟩ | ⟨ho, hc⟩⟩
  · rw [hs]; exact h
  · rw [ho]; exact h
  · rw [ho]
    subst hc
    refine ⟨?_, ?_⟩
    · intro e he
      rcases List.mem_cons.1 he with rfl | he
      · rfl
      · exact h.1 e he
    · simp only [List.map_cons, List.nodup_cons]
      refine ⟨?_, h.2⟩
      intro hmem
      obtain ⟨e, he, hk⟩ := List.mem_map.1 hmem
      have hx := FindEntry_none hnone e he
      have : e.isMatch cmp x = true := by
        simp only [Entry.isMatch, Bool.and_eq_true, beq_iff_eq]
        have hk : e.key = x := hk
        exact ⟨by rw [h.1 e he, hk], by rw [hk]; exact hcmp.refl x⟩
      rw [hx] at this
      cases this

theorem KeysDistinct_wrapEach (cmp : EqualityComparer) (hcmp : cmp.Lawful) (A : Allocator)
    (this : ContextRef) (calls : List (ContextRef × HostObject)) :
    ∀ s : State σ, KeysDistinct cmp (s.objects this).mExternals →
      KeysDistinct cmp ((wrapEach cmp A calls s).objects this).mExternals := by
  induction calls with
  | nil => intro s h; exact h
  | cons call rest ih =>
    intro s h
    obtain ⟨c, x⟩ := call
    exact ih _ (KeysDistinct_step cmp hcmp A this c x s h)

theorem HandlesDistinct_step (cmp : EqualityComparer) (A : Allocator)
    (this c : ContextRef) (x : HostObject) (s : State σ) (h : HandlesDistinct this s) :
    HandlesDistinct this (JavascriptContext.WrapObject cmp A c x s).2 := by
  rcases WrapObject_step cmp A this c x s with hs | ⟨-, -, hheap, ⟨ho, -⟩ | ⟨ho, -⟩⟩
  · rw [hs]; exact h
  · unfold HandlesDistinct
    rw [ho, hheap]
    exact ⟨fun e he => List.mem_cons_of_mem _ (h.1 e he), h.2⟩
  · unfold HandlesDistinct
    rw [ho, hheap]
    refine ⟨?_, ?_⟩
    · intro e he
      rcases List.mem_cons.1 he with rfl | he
      · exact List.mem_cons_self _ _
      · exact List.mem_cons_of_mem _ (h.1 e he)
    · simp only [List.map_cons, List.nodup_cons]
      refine ⟨?_, h.2⟩
      intro hmem
      obtain ⟨e, he, hv⟩ := List.mem_map.1 hmem
      have hv : e.value = A.alloc s.heap := hv
      exact A.fresh s.heap (hv ▸ h.1 e he)

theorem HandlesDistinct_wrapEach (cmp : EqualityComparer) (A : Allocator)
    (this : ContextRef) (calls : List (ContextRef × HostObject)) :
    ∀ s : State σ, HandlesDistinct this s → HandlesDistinct this (wrapEach cmp A calls s) := by
  induction calls with
  | nil => intro s h; exact h
  | cons call rest ih =>
    intro s h
    obtain ⟨c, x⟩ := call
    exact ih _ (HandlesDistinct_step cmp A this c x s h)

theorem registry_mono_step (cmp : EqualityComparer) (A : Allocator)
    (this c : ContextRef) (x : HostObject) (s : State σ) (e : Entry)
    (h : e ∈ (s.objects this).mExternals) :
    e ∈ ((JavascriptContext.WrapObject cmp A c x s).2.objects this).mExternals := by
  rcases WrapObject_step cmp A this c x s with hs | ⟨-, -, -, ⟨ho, -⟩ | ⟨ho, -⟩⟩
  · rw [hs]; exact h
  · rw [ho]; exact h
  · rw [ho]; exact List.mem_cons_of_mem _ h

theorem registry_mono_wrapEach (cmp : EqualityComparer) (A : Allocator)
    (this : ContextRef) (e : Entry) (calls : List (ContextRef × HostObject)) :
    ∀ s : State σ, e ∈ (s.objects this).mExternals →
      e ∈ ((wrapEach cmp A calls s).objects this).mExternals := by
  induction calls with
  | nil => intro s h; exact h
  | cons call rest ih =>
    intro s h
    obtain ⟨c, x⟩ := call
    exact ih _ (registry_mono_step cmp A this c x s e h)

theorem ctor_object (A : Allocator) (this : ContextRef) (iso : Isolate) (s : State σ) :
    (JavascriptContext.ctor A this iso s).objects this =
        { isolate := iso, mContext := A.alloc s.heap, mExternals := [] } ∧
      (JavascriptContext.ctor A this iso s).heap = A.alloc s.heap :: s.heap := by
  unfold JavascriptContext.ctor Locker.ctor
  by_cases hl : iso ∈ s.locked <;>
    simp [hl, State.log, Isolate.Enter, Isolate.Exit, Locker.dtor]

theorem ctor_KeysDistinct (cmp : EqualityComparer) (A : Allocator) (this : ContextRef)
    (iso : Isolate) (s : State σ) :
    KeysDistinct cmp ((JavascriptContext.ctor A this iso s).objects this).mExternals := by
  rw [(ctor_object A this iso s).1]
  exact ⟨by simp, by simp⟩

theorem ctor_HandlesDistinct (A : Allocator) (this : ContextRef) (iso : Isolate)
    (s : State σ) : HandlesDistinct this (JavascriptContext.ctor A this iso s) := by
  unfold HandlesDistinct
  rw [(ctor_object A this iso s).1]
  exact ⟨by simp, by simp⟩

end RegistryInvariants

section RegistryProperties

variable {σ : Type}

theorem referenceEquality_lawful : referenceEquality.Lawful where
  refl := by simp [referenceEquality]
  symm := by simp only [referenceEquality, beq_iff_eq]; intro a b h; exact h.symm
  trans := by simp [referenceEquality]

theorem valueEquality_lawful : valueEquality.Lawful where
  refl := by simp [valueEquality]
  symm := by simp only [valueEquality, beq_iff_eq]; intro a b h; exact h.symm
  trans := by simp only [valueEquality, beq_iff_eq]; intro a b c h1 h2; exact h1.trans h2

/-- C1 as stated fails. On a new context, object 5 wrapped twice gets two handles and two
registry entries when its `Equals` is not reflexive (`neverEqual`), and also when its
hash code has changed between the two calls (`referenceEquality` at the first call,
`referenceEqualityRehashed` at the second); and with an `Equals` that is not symmetric
(`orderEquality`, object 3 wrapped in between) or not transitive (`nearEquality`, object
4 wrapped before and object 6 in between) the second call for object 5 returns another
handle than the first. -/
theorem WrapObject_twice_second_handle :
    ((JavascriptContext.WrapObject neverEqual bumpAllocator 0 5
        (JavascriptContext.WrapObject neverEqual bumpAllocator 0 5
          (JavascriptContext.ctor bumpAllocator 0 1 State.boot)).2).1 ≠
      (JavascriptContext.WrapObject neverEqual bumpAllocator 0 5
        (JavascriptContext.ctor bumpAllocator 0 1 State.boot)).1 ∧
    (((JavascriptContext.WrapObject neverEqual bumpAllocator 0 5
        (JavascriptContext.WrapObject neverEqual bumpAllocator 0 5
          (JavascriptContext.ctor bumpAllocator 0 1 State.boot)).2).2.objects
      0).mExternals.map (·.key)) = [5, 5]) ∧
    ((JavascriptContext.WrapObject referenceEqualityRehashed bumpAllocator 0 5
        (JavascriptContext.WrapObject referenceEquality bumpAllocator 0 5
          (JavascriptContext.ctor bumpAllocator 0 1 State.boot)).2).1 ≠
      (JavascriptContext.WrapObject referenceEquality bumpAllocator 0 5
        (JavascriptContext.ctor bumpAllocator 0 1 State.boot)).1 ∧
    (((JavascriptContext.WrapObject referenceEqualityRehashed bumpAllocator 0 5
        (JavascriptContext.WrapObject referenceEquality bumpAllocator 0 5
          (JavascriptContext.ctor bumpAllocator 0 1 State.boot)).2).2.objects
      0).mExternals.map (·.key)) = [5, 5]) ∧
    (JavascriptContext.WrapObject orderEquality bumpAllocator 0 5
        (wrapEach orderEquality bumpAllocator [(0, 3)]
          (JavascriptContext.WrapObject orderEquality bumpAllocator 0 5
            (JavascriptContext.ctor bumpAllocator 0 1 State.boot)).2)).1 ≠
      (JavascriptContext.WrapObject orderEquality bumpAllocator 0 5
        (JavascriptContext.ctor bumpAllocator 0 1 State.boot)).1 ∧
    (JavascriptContext.WrapObject nearEquality bumpAllocator 0 5
        (wrapEach nearEquality bumpAllocator [(0, 6)]
          (JavascriptContext.WrapObject nearEquality bumpAllocator 0 5
            (wrapEach nearEquality bumpAllocator [(0, 4)]
              (JavascriptContext.ctor bumpAllocator 0 1 State.boot))).2)).1 ≠
      (JavascriptContext.WrapObject nearEquality bumpAllocator 0 5
        (wrapEach nearEquality bumpAllocator [(0, 4)]
          (JavascriptContext.ctor bumpAllocator 0 1 State.boot))).1 := by
  decide

/-- C1, amended. With the keys' `Equals` an equivalence relation, and `Equals` and
`GetHashCode` answering the same at every call: `WrapObject(o)` called again on the same
context, after any calls of `WrapObject` for any objects on any contexts, returns the
handle the first call returned and leaves the state as it was (so adds no entry); and the
registry of a context, from its construction on, never holds two entries for one host
object. -/
theorem WrapObject_idempotent (cmp : EqualityComparer) (hcmp : cmp.Lawful) (A : Allocator) :
    (∀ (s : State σ) (this : ContextRef) (o : HostObject)
        (between : List (ContextRef × HostObject)),
      JavascriptContext.WrapObject cmp A this o
          (wrapEach cmp A between (JavascriptContext.WrapObject cmp A this o s).2) =
        ((JavascriptContext.WrapObject cmp A this o s).1,
          wrapEach cmp A between (JavascriptContext.WrapObject cmp A this o s).2)) ∧
    (∀ (s : State σ) (this : ContextRef) (newIsolate : Isolate)
        (calls : List (ContextRef × HostObject)),
      (((wrapEach cmp A calls (JavascriptContext.ctor A this newIsolate s)).objects
        this).mExternals.map (·.key)).Nodup) := by
  refine ⟨?_, ?_⟩
  · intro s this o between
    obtain ⟨e, hfind, hval⟩ := WrapObject_registered cmp hcmp A this o s
    have h2 := FindEntry_stable_wrapEach cmp hcmp A this o e between _ hfind
    rw [WrapObject_found cmp A this o _ e h2, hval]
  · intro s this newIsolate calls
    exact (KeysDistinct_wrapEach cmp hcmp A this calls _
      (ctor_KeysDistinct cmp A this newIsolate s)).2

/-- C1, amended, at a concrete input: object 5 wrapped on context 0, then objects 6 and 5 on
contexts 0 and 1, then object 5 on context 0 again. -/
theorem WrapObject_idempotent_witness :
    JavascriptContext.WrapObject referenceEquality bumpAllocator 0 5
        (wrapEach referenceEquality bumpAllocator [(0, 6), (1, 5)]
          (JavascriptContext.WrapObject referenceEquality bumpAllocator 0 5 State.boot).2) =
      ((JavascriptContext.WrapObject referenceEquality bumpAllocator 0 5 State.boot).1,
        wrapEach referenceEquality bumpAllocator [(0, 6), (1, 5)]
          (JavascriptContext.WrapObject referenceEquality bumpAllocator 0 5 State.boot).2) :=
  (WrapObject_idempotent referenceEquality referenceEquality_lawful bumpAllocator).1
    State.boot 0 5 [(0, 6), (1, 5)]

/-- C2 as stated fails: objects 2 and 3 are two different host objects that `Equals`
holds equal (they carry the same value), and on a new context `WrapObject` returns for
the second the handle it made for the first. -/
theorem WrapObject_equal_objects_share_handle :
    (2 : HostObject) ≠ 3 ∧
      (JavascriptContext.WrapObject valueEquality bumpAllocator 0 3
        (JavascriptContext.WrapObject valueEquality bumpAllocator 0 2
          (JavascriptContext.ctor bumpAllocator 0 1 State.boot)).2).1 =
      (JavascriptContext.WrapObject valueEquality bumpAllocator 0 2
        (JavascriptContext.ctor bumpAllocator 0 1 State.boot)).1 := by
  decide

/-- C2, amended. With the keys' `Equals` an equivalence relation: two host objects that
`Equals` holds different get different handles from `WrapObject` on the same context,
whatever calls of `WrapObject` were made since the context's construction. -/
theorem WrapObject_unequal_distinct (cmp : EqualityComparer) (hcmp : cmp.Lawful)
    (A : Allocator) (s : State σ) (this : ContextRef) (newIsolate : Isolate)
    (before between : List (ContextRef × HostObject)) (o1 o2 : HostObject)
    (hne : cmp.Equals o1 o2 = false) :
    (JavascriptContext.WrapObject cmp A this o1
        (wrapEach cmp A before (JavascriptContext.ctor A this newIsolate s))).1 ≠
      (JavascriptContext.WrapObject cmp A this o2
        (wrapEach cmp A between
          (JavascriptContext.WrapObject cmp A this o1
            (wrapEach cmp A before (JavascriptContext.ctor A this newIsolate s))).2)).1 := by
  have inv1 := HandlesDistinct_wrapEach cmp A this before _
    (ctor_HandlesDistinct A this newIsolate s)
  generalize wrapEach cmp A before (JavascriptContext.ctor A this newIsolate s) = s1 at inv1 ⊢
  have inv2 := HandlesDistinct_wrapEach cmp A this between _
    (HandlesDistinct_step cmp A this this o1 s1 inv1)
  obtain ⟨e1, hfind1, hval1⟩ := WrapObject_registered cmp hcmp A this o1 s1
  obtain ⟨hmem1, hm1⟩ := FindEntry_some hfind1
  have hmem2 := registry_mono_wrapEach cmp A this e1 between _ hmem1
  generalize wrapEach cmp A between (JavascriptContext.WrapObject cmp A this o1 s1).2 = s2
    at inv2 hmem2 ⊢
  rw [← hval1]
  cases hfind2 : (s2.objects this).mExternals.FindEntry cmp o2 with
  | some e2 =>
    rw [WrapObject_found cmp A this o2 s2 e2 hfind2]
    obtain ⟨hmem3, hm2⟩ := FindEntry_some hfind2
    intro heq
    have hsame : e1 = e2 := List.inj_on_of_nodup_map inv2.2 hmem2 hmem3 heq
    subst hsame
    simp only [Entry.isMatch, Bool.and_eq_true, beq_iff_eq] at hm1 hm2
    have := hcmp.trans _ _ _ (hcmp.symm _ _ hm1.2) hm2.2
    rw [hne] at this
    cases this
  | none =>
    rw [WrapObject_added cmp A this o2 s2 hfind2]
    intro heq
    have heq : e1.value = A.alloc s2.heap := heq
    exact A.fresh s2.heap (heq ▸ inv2.1 e1 hmem2)

/-- C2, amended, at a concrete input: on context 0, after object 8 was wrapped, objects 2
and 5, which `valueEquality` holds different, are wrapped with calls for objects 2 (on
context 1) and 9 in between. -/
theorem WrapObject_unequal_distinct_witness :
    (JavascriptContext.WrapObject valueEquality bumpAllocator 0 2
        (wrapEach valueEquality bumpAllocator [(0, 8)]
          (JavascriptContext.ctor bumpAllocator 0 1 State.boot))).1 ≠
      (JavascriptContext.WrapObject valueEquality bumpAllocator 0 5
        (wrapEach valueEquality bumpAllocator [(1, 2), (0, 9)]
          (JavascriptContext.WrapObject valueEquality bumpAllocator 0 2
            (wrapEach valueEquality bumpAllocator [(0, 8)]
              (JavascriptContext.ctor bumpAllocator 0 1 State.boot))).2)).1 :=
  WrapObject_unequal_distinct valueEquality valueEquality_lawful bumpAllocator State.boot 0 1
    [(0, 8)] [(1, 2), (0, 9)] 2 5 (by decide)

end RegistryProperties

/-! ### Teardown -/

section Teardown

variable {σ : Type}

/-- The loop of the destructor over `mExternals->Values`. -/
theorem delete_each (vals : List Ptr) :
    ∀ s : State σ,
      (vals.foldl deleteExternal s).trace = s.trace ++ vals.map Event.deleteExternal ∧
      (vals.foldl deleteExternal s).heap = s.heap.filter (fun q => decide (q ∉ vals)) ∧
      (vals.foldl deleteExternal s).objects = s.objects ∧
      (vals.foldl deleteExternal s).locked = s.locked ∧
      (vals.foldl deleteExternal s).entered = s.entered ∧
      (vals.foldl deleteExternal s).contexts = s.contexts ∧
      (vals.foldl deleteExternal s).disposed = s.disposed ∧
      (vals.foldl deleteExternal s).sCurrentContext = s.sCurrentContext ∧
      (vals.foldl deleteExternal s).engine = s.engine := by
  induction vals with
  | nil => intro s; simp
  | cons v rest ih =>
    intro s
    simp only [List.foldl_cons]
    obtain ⟨h1, h2, h3, h4, h5, h6, h7, h8, h9⟩ := ih (deleteExternal s v)
    refine ⟨?_, ?_, ?_, ?_, ?_, ?_, ?_, ?_, ?_⟩
    · rw [h1]; simp [deleteExternal, State.log, State.free]
    · rw [h2]
      simp only [deleteExternal, State.log, State.free, List.filter_filter]
      congr 1
      funext q
      by_cases hq : q = v <;> simp [hq]
    · rw [h3]; rfl
    · rw [h4]; rfl
    · rw [h5]; rfl
    · rw [h6]; rfl
    · rw [h7]; rfl
    · rw [h8]; rfl
    · rw [h9]; rfl

/-- The calls the destructor makes, in order. -/
theorem dtor_trace (this : ContextRef) (s : State σ) :
    (JavascriptContext.dtor this s).trace =
      s.trace ++ [.lockerCtor (s.objects this).isolate, .isolateEnter (s.objects this).isolate]
        ++ (s.objects this).mExternals.Values.map Event.deleteExternal
        ++ [.deleteContext (s.objects this).mContext, .deleteExternals this,
            .isolateExit (s.objects this).isolate, .lockerDtor (s.objects this).isolate]
        ++ (if (s.objects this).isolate ≠ NULL then
            [.isolateDispose (s.objects this).isolate] else []) := by
  have h := fun s2 : State σ => (delete_each (s.objects this).mExternals.Values s2).1
  simp only [JavascriptContext.dtor, Locker_ctor_eq, Locker_dtor_eq, Isolate.Enter,
    Isolate.Exit, Isolate.Dispose, State.log, State.free]
  split_ifs with hn <;> simp [h]

/-- No handle of the registry is live once the destructor has run. -/
theorem dtor_heap (this : ContextRef) (s : State σ) (v : Ptr)
    (hv : v ∈ (s.objects this).mExternals.Values) : v ∉ (JavascriptContext.dtor this s).heap := by
  have h := fun s2 : State σ => (delete_each (s.objects this).mExternals.Values s2).2.1
  simp only [JavascriptContext.dtor, Locker_ctor_eq, Locker_dtor_eq, Isolate.Enter,
    Isolate.Exit, Isolate.Dispose, State.log, State.free]
  split_ifs with hn <;> simp [h, hv]

/-- Once the destructor has run, the thread holds the locks and is inside the isolates it
held and was inside before: its `Locker` and its `Isolate::Scope` have ended. -/
theorem dtor_released (this : ContextRef) (s : State σ) :
    (JavascriptContext.dtor this s).locked = s.locked ∧
      (JavascriptContext.dtor this s).entered = s.entered := by
  have hlocked := fun s2 : State σ =>
    (delete_each (s.objects this).mExternals.Values s2).2.2.2.1
  have hentered := fun s2 : State σ =>
    (delete_each (s.objects this).mExternals.Values s2).2.2.2.2.1
  simp only [JavascriptContext.dtor, Locker_ctor_eq, Locker_dtor_eq, Isolate.Enter,
    Isolate.Exit, Isolate.Dispose, State.log, State.free]
  by_cases hl : (s.objects this).isolate ∈ s.locked <;>
    split_ifs <;> simp_all

end Teardown

section TeardownProperties

variable {σ : Type}

/-- The handle `WrapObject` returns is in the registry afterwards, every entry of the
registry was there before or carries that handle, and the context's isolate and
global-context handle are not touched. -/
theorem WrapObject_handle (cmp : EqualityComparer) (A : Allocator) (this : ContextRef)
    (o : HostObject) (s : State σ) :
    (∃ e ∈ ((JavascriptContext.WrapObject cmp A this o s).2.objects this).mExternals,
        e.value = (JavascriptContext.WrapObject cmp A this o s).1) ∧
    (∀ e ∈ ((JavascriptContext.WrapObject cmp A this o s).2.objects this).mExternals,
        e ∈ (s.objects this).mExternals ∨
          e.value = (JavascriptContext.WrapObject cmp A this o s).1) ∧
    ((JavascriptContext.WrapObject cmp A this o s).2.objects this).isolate =
        (s.objects this).isolate ∧
    ((JavascriptContext.WrapObject cmp A this o s).2.objects this).mContext =
        (s.objects this).mContext ∧
    (JavascriptContext.WrapObject cmp A this o s).2.trace = s.trace := by
  cases h : (s.objects this).mExternals.FindEntry cmp o with
  | some e =>
    rw [WrapObject_found cmp A this o s e h]
    exact ⟨⟨e, (FindEntry_some h).1, rfl⟩, fun e' he' => Or.inl he', rfl, rfl, rfl⟩
  | none =>
    rw [WrapObject_added cmp A this o s h]
    refine ⟨⟨{ hashCode := cmp.GetHashCode o, key := o, value := A.alloc s.heap }, ?_, rfl⟩,
      ?_, ?_, ?_, rfl⟩
    · simp
    · intro e' he'
      simp only [Function.update_same, List.mem_cons] at he'
      rcases he' with rfl | he'
      · right; rfl
      · left; exact he'
    · simp
    · simp

theorem registry_mono_wrapAll_aux (cmp : EqualityComparer) (A : Allocator)
    (this : ContextRef) (objs : List HostObject) :
    ∀ (s : State σ) (e : Entry), e ∈ (s.objects this).mExternals →
      e ∈ ((wrapAll cmp A this objs s).2.objects this).mExternals := by
  induction objs with
  | nil => intro s e h; exact h
  | cons o rest ih =>
    intro s e h
    simp only [wrapAll]
    exact ih _ e (registry_mono_step cmp A this this o s e h)

theorem wrapAll_handles (cmp : EqualityComparer) (A : Allocator) (this : ContextRef)
    (objs : List HostObject) :
    ∀ s : State σ, HandlesDistinct this s →
      HandlesDistinct this (wrapAll cmp A this objs s).2 ∧
      (∀ h ∈ (wrapAll cmp A this objs s).1,
        ∃ e ∈ ((wrapAll cmp A this objs s).2.objects this).mExternals, e.value = h) ∧
      (∀ e ∈ ((wrapAll cmp A this objs s).2.objects this).mExternals,
        e ∈ (s.objects this).mExternals ∨ e.value ∈ (wrapAll cmp A this objs s).1) ∧
      ((wrapAll cmp A this objs s).2.objects this).isolate = (s.objects this).isolate ∧
      ((wrapAll cmp A this objs s).2.objects this).mContext = (s.objects this).mContext := by
  induction objs with
  | nil =>
    intro s h
    exact ⟨h, by simp [wrapAll], fun e he => Or.inl he, rfl, rfl⟩
  | cons o rest ih =>
    intro s h
    obtain ⟨⟨e0, he0, hv0⟩, hold, hiso, hctx, -⟩ := WrapObject_handle cmp A this o s
    obtain ⟨i1, i2, i3, i4, i5⟩ := ih (JavascriptContext.WrapObject cmp A this o s).2
      (HandlesDistinct_step cmp A this this o s h)
    simp only [wrapAll]
    refine ⟨i1, ?_, ?_, by rw [i4, hiso], by rw [i5, hctx]⟩
    · intro p hp
      rcases List.mem_cons.1 hp with rfl | hp
      · exact ⟨e0, registry_mono_wrapAll_aux cmp A this rest _ e0 he0, hv0⟩
      · exact i2 p hp
    · intro e he
      rcases i3 e he with h1 | h1
      · rcases hold e h1 with h2 | h2
        · exact Or.inl h2
        · exact Or.inr (h2 ▸ List.mem_cons_self _ _)
      · exact Or.inr (List.mem_cons_of_mem _ h1)

theorem dtor_heap_context (this : ContextRef) (s : State σ) :
    (s.objects this).mContext ∉ (JavascriptContext.dtor this s).heap := by
  simp only [JavascriptContext.dtor, Locker_ctor_eq, Locker_dtor_eq, Isolate.Enter,
    Isolate.Exit, Isolate.Dispose, State.log, State.free]
  split_ifs with hn <;> simp

theorem deleteExternal_injective : Function.Injective Event.deleteExternal := by
  intro a b h
  cases h
  rfl

/-- C6. A context is constructed, `WrapObject` is called on it for any host objects, and
it is destroyed. The destructor's calls are, in this order: the `Locker` is constructed
and the isolate entered; `delete` on each handle of the registry; `delete` on the
global-context handle and on the registry; the isolate is left and the `Locker`
destroyed; the isolate is disposed of. Every handle `WrapObject` returned is deleted
exactly once and is not live afterwards, nothing else is deleted as a wrapper, the isolate
is disposed of exactly once, the global-context handle is not live afterwards, and the
thread is left holding the locks and inside the isolates it held and was inside before. -/
theorem dtor_teardown (cmp : EqualityComparer) (A : Allocator) (s : State σ)
    (this : ContextRef) (newIsolate : Isolate) (hiso : newIsolate ≠ NULL)
    (objs : List HostObject) :
    let issued := wrapAll cmp A this objs (JavascriptContext.ctor A this newIsolate s)
    let c := issued.2.objects this
    let final := JavascriptContext.dtor this issued.2
    let teardown : List Event :=
      [.lockerCtor newIsolate, .isolateEnter newIsolate]
        ++ c.mExternals.Values.map Event.deleteExternal
        ++ [.deleteContext c.mContext, .deleteExternals this, .isolateExit newIsolate,
            .lockerDtor newIsolate, .isolateDispose newIsolate]
    final.trace = issued.2.trace ++ teardown ∧
    (∀ h ∈ issued.1, teardown.count (.deleteExternal h) = 1 ∧ h ∉ final.heap) ∧
    (∀ h, Event.deleteExternal h ∈ teardown → h ∈ issued.1) ∧
    teardown.count (.isolateDispose newIsolate) = 1 ∧
    teardown.count (.deleteContext c.mContext) = 1 ∧
    c.mContext ∉ final.heap ∧
    final.locked = issued.2.locked ∧ final.entered = issued.2.entered := by
  intro issued c final teardown
  obtain ⟨hinv, hissued, hvalues, hisolate, -⟩ := wrapAll_handles cmp A this objs _
    (ctor_HandlesDistinct A this newIsolate s)
  have hc_iso : c.isolate = newIsolate := by
    show (issued.2.objects this).isolate = newIsolate
    rw [hisolate, (ctor_object A this newIsolate s).1]
  have hnodup : c.mExternals.Values.Nodup := by
    unfold Dictionary.Values
    rw [List.map_reverse, List.nodup_reverse]
    exact hinv.2
  have hmemV : ∀ h, h ∈ c.mExternals.Values ↔ ∃ e ∈ c.mExternals, e.value = h := by
    intro h
    simp [Dictionary.Values]
  refine ⟨?_, ?_, ?_, ?_, ?_, dtor_heap_context this issued.2, dtor_released this issued.2⟩
  · show (JavascriptContext.dtor this issued.2).trace = _
    rw [dtor_trace, if_pos (by rw [hc_iso]; exact hiso)]
    show _ = issued.2.trace ++ teardown
    have hc_iso2 : (issued.2.objects this).isolate = newIsolate := hc_iso
    simp only [teardown, hc_iso2, c, List.append_assoc, List.cons_append, List.nil_append]
  · intro h hh
    have hv : h ∈ c.mExternals.Values := (hmemV h).2 (hissued h hh)
    refine ⟨?_, dtor_heap this issued.2 h hv⟩
    have : (c.mExternals.Values.map Event.deleteExternal).count (.deleteExternal h) = 1 := by
      rw [List.count_map_of_injective _ _ deleteExternal_injective]
      exact List.count_eq_one_of_mem hnodup hv
    simp only [teardown, List.count_append, this]
    simp [List.count_cons]
  · intro h hh
    simp only [teardown, List.mem_append, List.mem_cons, List.mem_map, List.mem_singleton,
      List.not_mem_nil, or_false, reduceCtorEq, false_or, Event.deleteExternal.injEq] at hh
    obtain ⟨v, hv, rfl⟩ := hh
    obtain ⟨e, he, rfl⟩ := (hmemV v).1 hv
    rcases hvalues e he with h0 | h1
    · rw [(ctor_object A this newIsolate s).1] at h0
      cases h0
    · exact h1
  · simp only [teardown, List.count_append]
    have : (c.mExternals.Values.map Event.deleteExternal).count (.isolateDispose newIsolate)
        = 0 := by
      rw [List.count_eq_zero]
      simp
    rw [this]
    simp [List.count_cons]
  · simp only [teardown, List.count_append]
    have : (c.mExternals.Values.map Event.deleteExternal).count (.deleteContext c.mContext)
        = 0 := by
      rw [List.count_eq_zero]
      simp
    rw [this]
    simp [List.count_cons]

/-- C6 at a concrete input: context 0 is constructed on isolate 1, objects 5, 6 and 5
again are wrapped, and the context is destroyed. -/
theorem dtor_teardown_witness :
    let issued := wrapAll referenceEquality bumpAllocator 0 [5, 6, 5]
      (JavascriptContext.ctor bumpAllocator 0 1 State.boot)
    let c := issued.2.objects 0
    let final := JavascriptContext.dtor 0 issued.2
    let teardown : List Event :=
      [.lockerCtor 1, .isolateEnter 1]
        ++ c.mExternals.Values.map Event.deleteExternal
        ++ [.deleteContext c.mContext, .deleteExternals 0, .isolateExit 1,
            .lockerDtor 1, .isolateDispose 1]
    final.trace = issued.2.trace ++ teardown ∧
    (∀ h ∈ issued.1, teardown.count (.deleteExternal h) = 1 ∧ h ∉ final.heap) ∧
    (∀ h, Event.deleteExternal h ∈ teardown → h ∈ issued.1) ∧
    teardown.count (.isolateDispose 1) = 1 ∧
    teardown.count (.deleteContext c.mContext) = 1 ∧
    c.mContext ∉ final.heap ∧
    final.locked = issued.2.locked ∧ final.entered = issued.2.entered :=
  dtor_teardown referenceEquality bumpAllocator State.boot 0 1 (by decide) [5, 6, 5]

end TeardownProperties

/-! ### What calls of `WrapObject` leave alone -/

section Callbacks

variable {σ : Type}

/-- `WrapObject` changes nothing but the context objects and the native heap. -/
theorem WrapObject_frame (cmp : EqualityComparer) (A : Allocator) (c : ContextRef)
    (x : HostObject) (s : State σ) :
    (JavascriptContext.WrapObject cmp A c x s).2 =
      { s with
        objects := (JavascriptContext.WrapObject cmp A c x s).2.objects
        heap := (JavascriptContext.WrapObject cmp A c x s).2.heap } := by
  cases h : (s.objects c).mExternals.FindEntry cmp x with
  | some e => rw [WrapObject_found cmp A c x s e h]
  | none => rw [WrapObject_added cmp A c x s h]

/-- The context objects and the heap `WrapObject` leaves depend on those it finds only. -/
theorem WrapObject_congr (cmp : EqualityComparer) (A : Allocator) (c : ContextRef)
    (x : HostObject) (s t : State σ) (hobjects : t.objects = s.objects)
    (hheap : t.heap = s.heap) :
    (JavascriptContext.WrapObject cmp A c x t).2.objects =
        (JavascriptContext.WrapObject cmp A c x s).2.objects ∧
      (JavascriptContext.WrapObject cmp A c x t).2.heap =
        (JavascriptContext.WrapObject cmp A c x s).2.heap := by
  cases h : (s.objects c).mExternals.FindEntry cmp x with
  | some e =>
    have ht : (t.objects c).mExternals.FindEntry cmp x = some e := by rw [hobjects]; exact h
    rw [WrapObject_found cmp A c x s e h, WrapObject_found cmp A c x t e ht]
    exact ⟨hobjects, hheap⟩
  | none =>
    have ht : (t.objects c).mExternals.FindEntry cmp x = none := by rw [hobjects]; exact h
    rw [WrapObject_added cmp A c x s h, WrapObject_added cmp A c x t ht]
    simp only [hobjects, hheap, and_self]

/-- Calls of `WrapObject` change nothing but the context objects and the native heap. -/
theorem wrapEach_frame (cmp : EqualityComparer) (A : Allocator)
    (calls : List (ContextRef × HostObject)) :
    ∀ s : State σ, wrapEach cmp A calls s =
      { s with
        objects := (wrapEach cmp A calls s).objects
        heap := (wrapEach cmp A calls s).heap } := by
  induction calls with
  | nil => intro s; rfl
  | cons call rest ih =>
    intro s
    obtain ⟨c, x⟩ := call
    show wrapEach cmp A rest (JavascriptContext.WrapObject cmp A c x s).2 =
      { s with
        objects := (wrapEach cmp A rest (JavascriptContext.WrapObject cmp A c x s).2).objects
        heap := (wrapEach cmp A rest (JavascriptContext.WrapObject cmp A c x s).2).heap }
    rw [ih (JavascriptContext.WrapObject cmp A c x s).2]
    generalize (wrapEach cmp A rest (JavascriptContext.WrapObject cmp A c x s).2).objects = o
    generalize (wrapEach cmp A rest (JavascriptContext.WrapObject cmp A c x s).2).heap = h
    rw [WrapObject_frame cmp A c x s]

/-- The context objects and the heap that calls of `WrapObject` leave depend on those they
find only. -/
theorem wrapEach_congr (cmp : EqualityComparer) (A : Allocator)
    (calls : List (ContextRef × HostObject)) :
    ∀ s t : State σ, t.objects = s.objects → t.heap = s.heap →
      (wrapEach cmp A calls t).objects = (wrapEach cmp A calls s).objects ∧
        (wrapEach cmp A calls t).heap = (wrapEach cmp A calls s).heap := by
  induction calls with
  | nil => intro s t ho hh; exact ⟨ho, hh⟩
  | cons call rest ih =>
    intro s t ho hh
    obtain ⟨c, x⟩ := call
    exact ih _ _ (WrapObject_congr cmp A c x s t ho hh).1 (WrapObject_congr cmp A c x s t ho hh).2

/-- Calls of `WrapObject` leave every context its isolate and its global-context handle,
and put the entries they add in front of those the registry had. -/
theorem wrapEach_objects (cmp : EqualityComparer) (A : Allocator) (this : ContextRef)
    (calls : List (ContextRef × HostObject)) :
    ∀ s : State σ,
      ((wrapEach cmp A calls s).objects this).isolate = (s.objects this).isolate ∧
      ((wrapEach cmp A calls s).objects this).mContext = (s.objects this).mContext ∧
      ∃ added, ((wrapEach cmp A calls s).objects this).mExternals =
        added ++ (s.objects this).mExternals := by
  induction calls with
  | nil => intro s; exact ⟨rfl, rfl, [], rfl⟩
  | cons call rest ih =>
    intro s
    obtain ⟨c, x⟩ := call
    obtain ⟨h1, h2, added, h3⟩ := ih (JavascriptContext.WrapObject cmp A c x s).2
    show ((wrapEach cmp A rest (JavascriptContext.WrapObject cmp A c x s).2).objects
        this).isolate = _ ∧
      ((wrapEach cmp A rest (JavascriptContext.WrapObject cmp A c x s).2).objects
        this).mContext = _ ∧
      ∃ added, ((wrapEach cmp A rest (JavascriptContext.WrapObject cmp A c x s).2).objects
        this).mExternals = added ++ _
    rw [h1, h2, h3]
    rcases WrapObject_step cmp A this c x s with hs | ⟨-, -, -, ⟨ho, -⟩ | ⟨ho, -⟩⟩
    · rw [hs]; exact ⟨rfl, rfl, added, rfl⟩
    · rw [ho]; exact ⟨rfl, rfl, added, rfl⟩
    · rw [ho]
      exact ⟨rfl, rfl, added ++ [(⟨cmp.GetHashCode x, x, A.alloc s.heap⟩ : Entry)], by simp⟩

/-- Calls of `WrapObject` on one context leave the other context objects as they were. -/
theorem wrapEach_other (cmp : EqualityComparer) (A : Allocator) (this c : ContextRef)
    (hc : c ≠ this) (exposed : List HostObject) :
    ∀ s : State σ,
      (wrapEach cmp A (exposed.map (fun iObject => (this, iObject))) s).objects c =
        s.objects c := by
  induction exposed with
  | nil => intro s; rfl
  | cons x rest ih =>
    intro s
    show (wrapEach cmp A (rest.map (fun iObject => (this, iObject)))
      (JavascriptContext.WrapObject cmp A this x s).2).objects c = _
    rw [ih]
    rcases WrapObject_step cmp A c this x s with hs | ⟨-, -, -, ⟨ho, -⟩ | ⟨-, hthis⟩⟩
    · rw [hs]
    · exact ho
    · exact absurd hthis.symm hc

/-- Calls of `WrapObject` free nothing: the native objects they make are put in front of
those that were live. -/
theorem wrapEach_heap (cmp : EqualityComparer) (A : Allocator)
    (calls : List (ContextRef × HostObject)) :
    ∀ s : State σ, ∃ made, (wrapEach cmp A calls s).heap = made ++ s.heap := by
  induction calls with
  | nil => intro s; exact ⟨[], rfl⟩
  | cons call rest ih =>
    intro s
    obtain ⟨c, x⟩ := call
    obtain ⟨made, h⟩ := ih (JavascriptContext.WrapObject cmp A c x s).2
    show ∃ made, (wrapEach cmp A rest (JavascriptContext.WrapObject cmp A c x s).2).heap =
      made ++ s.heap
    rw [h]
    rcases WrapObject_step cmp A c c x s with hs | ⟨-, -, hheap, -⟩
    · rw [hs]; exact ⟨made, rfl⟩
    · rw [hheap]; exact ⟨made ++ [A.alloc s.heap], by simp⟩

end Callbacks

/-! ### Enter and Exit -/

section Scope

variable {σ : Type}

theorem Enter_locker (this : ContextRef) (s : State σ) :
    (JavascriptContext.Enter this s).1 =
      { isolate := (s.objects this).isolate,
        has_lock := decide ((s.objects this).isolate ∉ s.locked) } := by
  simp [JavascriptContext.Enter, Locker_ctor_eq]

theorem Enter_old_context (this : ContextRef) (s : State σ) :
    (JavascriptContext.Enter this s).2.1 = s.sCurrentContext := by
  simp [JavascriptContext.Enter, Locker_ctor_eq, Isolate.Enter, State.log]

/-- The state `Enter` leaves. -/
theorem Enter_state (this : ContextRef) (s : State σ) :
    (JavascriptContext.Enter this s).2.2 =
      { s with
        sCurrentContext := some this
        locked := if (s.objects this).isolate ∈ s.locked then s.locked
          else (s.objects this).isolate :: s.locked
        entered := (s.objects this).isolate :: s.entered
        contexts := ((s.objects this).isolate, (s.objects this).mContext) :: s.contexts
        trace := s.trace ++ [.lockerCtor (s.objects this).isolate,
          .isolateEnter (s.objects this).isolate,
          .contextEnter (s.objects this).isolate (s.objects this).mContext] } := by
  by_cases h : (s.objects this).isolate ∈ s.locked <;>
    simp [JavascriptContext.Enter, Locker.ctor, State.log, Isolate.Enter, Context.Enter, h]

/-- `Exit` sets the current context to the `old_context` it is given. -/
theorem Exit_sCurrentContext (this : ContextRef) (locker : Locker)
    (old_context : Option ContextRef) (s : State σ) :
    (JavascriptContext.Exit this locker old_context s).sCurrentContext = old_context := by
  simp [JavascriptContext.Exit, Locker_dtor_eq, Isolate.Exit, State.log]

/-- C3. `Enter` makes its context the current one and `Exit`, given what `Enter` returned,
puts back the one that was current before: with any context P current, after `A.Enter`
the current context is A, after `B.Enter` it is B, after `B.Exit` it is A, and after
`A.Exit` it is P; and every well-bracketed sequence of `Enter`/`Exit` pairs leaves
`GetCurrent()` as it was. -/
theorem Enter_Exit_stack :
    (∀ (s : State σ) (A B : ContextRef),
      let a := JavascriptContext.Enter A s
      let b := JavascriptContext.Enter B a.2.2
      let afterB := JavascriptContext.Exit B b.1 b.2.1 b.2.2
      let afterA := JavascriptContext.Exit A a.1 a.2.1 afterB
      JavascriptContext.GetCurrent a.2.2 = some A ∧
      JavascriptContext.GetCurrent b.2.2 = some B ∧
      JavascriptContext.GetCurrent afterB = some A ∧
      JavascriptContext.GetCurrent afterA = JavascriptContext.GetCurrent s) ∧
    (∀ (calls : Bracketed) (s : State σ),
      JavascriptContext.GetCurrent (calls.run s) = JavascriptContext.GetCurrent s) := by
  refine ⟨?_, ?_⟩
  · intro s A B
    simp only [JavascriptContext.GetCurrent, Exit_sCurrentContext, Enter_old_context,
      Enter_state, and_self]
  · intro calls
    induction calls with
    | done => intro s; rfl
    | pair context inside after _ ih =>
      intro s
      simp only [Bracketed.run]
      rw [ih]
      simp only [JavascriptContext.GetCurrent, Exit_sCurrentContext, Enter_old_context]

end Scope

/-! ### Run -/

section Run

variable {σ : Type}

/-- `Exit`, given what `Enter` returned on `s`, in a state whose scope parts are those
`Enter` left: the scope parts of `s` are back and the calls of `Exit` are appended. -/
theorem Exit_after_Enter (this : ContextRef) (s s2 : State σ)
    (hisolate : (s2.objects this).isolate = (s.objects this).isolate)
    (hcontext : (s2.objects this).mContext = (s.objects this).mContext)
    (hlocked : s2.locked = (JavascriptContext.Enter this s).2.2.locked)
    (hentered : s2.entered = (JavascriptContext.Enter this s).2.2.entered)
    (hcontexts : s2.contexts = (JavascriptContext.Enter this s).2.2.contexts) :
    JavascriptContext.Exit this (JavascriptContext.Enter this s).1
        (JavascriptContext.Enter this s).2.1 s2 =
      { s2 with
        sCurrentContext := s.sCurrentContext
        locked := s.locked
        entered := s.entered
        contexts := s.contexts
        trace := s2.trace ++ [.contextExit (s.objects this).isolate (s.objects this).mContext,
          .isolateExit (s.objects this).isolate, .lockerDtor (s.objects this).isolate] } := by
  rw [Enter_state] at hlocked hentered hcontexts
  simp only at hlocked hentered hcontexts
  rw [Enter_locker, Enter_old_context]
  by_cases h : (s.objects this).isolate ∈ s.locked
  · simp [JavascriptContext.Exit, Context.Exit, Isolate.Exit, Locker.dtor, State.log, hisolate,
      hcontext, hlocked, hentered, hcontexts, h]
  · simp [JavascriptContext.Exit, Context.Exit, Isolate.Exit, Locker.dtor, State.log, hisolate,
      hcontext, hlocked, hentered, hcontexts, h]

theorem CompileScript_eq (E : Engine σ) (source_code : String) (resource_name : Option String)
    (s : State σ) :
    CompileScript E source_code resource_name s =
      ((match (E.Compile source_code resource_name s.engine).1 with
        | none => .error { tryCatch := E.caught (E.Compile source_code resource_name s.engine).2 }
        | some script => .ok script),
        { s with
          engine := (E.Compile source_code resource_name s.engine).2
          trace := s.trace ++ [.compile source_code resource_name] }) := by
  cases resource_name <;> simp only [CompileScript, State.log] <;> split <;> simp_all

/-- The callbacks of an execution with `this` the current context: the objects are
wrapped on `this`, and nothing but the context objects and the heap changes. -/
theorem hostCallbacks_eq (cmp : EqualityComparer) (A : Allocator) (this : ContextRef)
    (exposed : List HostObject) (s t : State σ) (hcurrent : t.sCurrentContext = some this)
    (hobjects : t.objects = s.objects) (hheap : t.heap = s.heap) :
    hostCallbacks cmp A exposed t =
      { t with
        objects := (wrapEach cmp A (exposed.map (fun iObject => (this, iObject))) s).objects
        heap := (wrapEach cmp A (exposed.map (fun iObject => (this, iObject))) s).heap } := by
  have hc := wrapEach_congr cmp A (exposed.map (fun iObject => (this, iObject))) s t
    hobjects hheap
  have hf := wrapEach_frame cmp A (exposed.map (fun iObject => (this, iObject))) t
  rw [hc.1, hc.2] at hf
  unfold hostCallbacks JavascriptContext.GetCurrent
  rw [hcurrent] at hf ⊢
  exact hf

theorem Script_Run_eq (cmp : EqualityComparer) (A : Allocator) (E : Engine σ)
    (compiledScript : Script) (s : State σ) :
    Script.Run cmp A E compiledScript s =
      ((E.Run compiledScript s.engine).1,
        hostCallbacks cmp A (E.exposed compiledScript s.engine)
          { s with
            engine := (E.Run compiledScript s.engine).2
            trace := s.trace ++ [.run compiledScript] }) := rfl

/-- What either overload of `Run` returns and the state it leaves, in terms of the
engine's answers and of the objects the execution's callbacks wrap. -/
theorem RunEither_eq (cmp : EqualityComparer) (A : Allocator) (E : Engine σ)
    (this : ContextRef) (iScript : String) (resource : Option String) (s : State σ) :
    JavascriptContext.RunEither cmp A E this iScript resource s =
      match (E.Compile iScript resource s.engine).1 with
      | none =>
        (.error { tryCatch := E.caught (E.Compile iScript resource s.engine).2 },
          { s with
            engine := (E.Compile iScript resource s.engine).2
            trace := s.trace ++ [.lockerCtor (s.objects this).isolate,
              .isolateEnter (s.objects this).isolate,
              .contextEnter (s.objects this).isolate (s.objects this).mContext,
              .compile iScript resource,
              .contextExit (s.objects this).isolate (s.objects this).mContext,
              .isolateExit (s.objects this).isolate, .lockerDtor (s.objects this).isolate] })
      | some script =>
        ((match (E.Run script (E.Compile iScript resource s.engine).2).1 with
          | none => .error
              { tryCatch := E.caught (E.Run script (E.Compile iScript resource s.engine).2).2 }
          | some ret => .ok (E.ConvertFromV8 ret)),
          { s with
            objects := (wrapEach cmp A
              ((E.exposed script (E.Compile iScript resource s.engine).2).map
                (fun iObject => (this, iObject))) s).objects
            heap := (wrapEach cmp A
              ((E.exposed script (E.Compile iScript resource s.engine).2).map
                (fun iObject => (this, iObject))) s).heap
            engine := (E.Run script (E.Compile iScript resource s.engine).2).2
            trace := s.trace ++ [.lockerCtor (s.objects this).isolate,
              .isolateEnter (s.objects this).isolate,
              .contextEnter (s.objects this).isolate (s.objects this).mContext,
              .compile iScript resource, .run script,
              .contextExit (s.objects this).isolate (s.objects this).mContext,
              .isolateExit (s.objects this).isolate, .lockerDtor (s.objects this).isolate] }) := by
  have hctor2 : (JavascriptScope.ctor this s).2 = (JavascriptContext.Enter this s).2.2 := rfl
  have hengine : (JavascriptContext.Enter this s).2.2.engine = s.engine := by rw [Enter_state]
  have hexit : ∀ s2 : State σ,
      (s2.objects this).isolate = (s.objects this).isolate →
      (s2.objects this).mContext = (s.objects this).mContext →
      s2.locked = (JavascriptContext.Enter this s).2.2.locked →
      s2.entered = (JavascriptContext.Enter this s).2.2.entered →
      s2.contexts = (JavascriptContext.Enter this s).2.2.contexts →
      JavascriptScope.dtor (JavascriptScope.ctor this s).1 s2 =
        { s2 with
          sCurrentContext := s.sCurrentContext
          locked := s.locked
          entered := s.entered
          contexts := s.contexts
          trace := s2.trace ++ [.contextExit (s.objects this).isolate (s.objects this).mContext,
            .isolateExit (s.objects this).isolate, .lockerDtor (s.objects this).isolate] } := by
    intro s2 h0 h1 h2 h3 h4
    exact Exit_after_Enter this s s2 h0 h1 h2 h3 h4
  have hcallbacks : ∀ (exposed : List HostObject) (engine : σ) (calls : List Event),
      hostCallbacks cmp A exposed
          { (JavascriptContext.Enter this s).2.2 with
            engine := engine
            trace := (JavascriptContext.Enter this s).2.2.trace ++ calls } =
        { (JavascriptContext.Enter this s).2.2 with
          objects := (wrapEach cmp A (exposed.map (fun iObject => (this, iObject))) s).objects
          heap := (wrapEach cmp A (exposed.map (fun iObject => (this, iObject))) s).heap
          engine := engine
          trace := (JavascriptContext.Enter this s).2.2.trace ++ calls } := by
    intro exposed engine calls
    rw [hostCallbacks_eq cmp A this exposed s _ (by rw [Enter_state]) (by rw [Enter_state])
      (by rw [Enter_state])]
  have hshape : JavascriptContext.RunEither cmp A E this iScript resource s =
      ((match (E.Compile iScript resource s.engine).1 with
        | none => .error { tryCatch := E.caught (E.Compile iScript resource s.engine).2 }
        | some script =>
          match (E.Run script (E.Compile iScript resource s.engine).2).1 with
          | none => .error
              { tryCatch := E.caught (E.Run script (E.Compile iScript resource s.engine).2).2 }
          | some ret => .ok (E.ConvertFromV8 ret)),
        JavascriptScope.dtor (JavascriptScope.ctor this s).1
          (match (E.Compile iScript resource s.engine).1 with
          | none =>
            { (JavascriptContext.Enter this s).2.2 with
              engine := (E.Compile iScript resource s.engine).2
              trace := (JavascriptContext.Enter this s).2.2.trace ++ [.compile iScript resource] }
          | some script =>
            { (JavascriptContext.Enter this s).2.2 with
              objects := (wrapEach cmp A
                ((E.exposed script (E.Compile iScript resource s.engine).2).map
                  (fun iObject => (this, iObject))) s).objects
              heap := (wrapEach cmp A
                ((E.exposed script (E.Compile iScript resource s.engine).2).map
                  (fun iObject => (this, iObject))) s).heap
              engine := (E.Run script (E.Compile iScript resource s.engine).2).2
              trace := (JavascriptContext.Enter this s).2.2.trace ++
                [.compile iScript resource, .run script] })) := by
    cases resource with
    | none =>
      simp only [JavascriptContext.RunEither, JavascriptContext.Run, CompileScript_eq,
        Script_Run_eq, hctor2, hengine]
      cases (E.Compile iScript none s.engine).1 with
      | none => rfl
      | some script =>
        simp only [List.append_assoc, List.singleton_append, hcallbacks]
        cases (E.Run script (E.Compile iScript none s.engine).2).1 <;> simp
    | some name =>
      simp only [JavascriptContext.RunEither, JavascriptContext.Run2, CompileScript_eq,
        Script_Run_eq, hctor2, hengine]
      cases (E.Compile iScript (some name) s.engine).1 with
      | none => rfl
      | some script =>
        simp only [List.append_assoc, List.singleton_append, hcallbacks]
        cases (E.Run script (E.Compile iScript (some name) s.engine).2).1 <;> simp
  rw [hshape]
  cases (E.Compile iScript resource s.engine).1 with
  | none =>
    simp only
    rw [hexit]
    · simp [Enter_state]
    · rw [Enter_state]
    · rw [Enter_state]
    · rfl
    · rfl
    · rfl
  | some script =>
    simp only
    rw [hexit]
    · simp [Enter_state]
    · exact (wrapEach_objects cmp A this _ s).1
    · exact (wrapEach_objects cmp A this _ s).2.1
    · rfl
    · rfl
    · rfl

/-- C5. For both overloads: `Run` throws exactly when the engine's compile step gives an
empty handle, or gives a script whose execution gives an empty handle; when the compile
step gives an empty handle no script is run (no execution is among the calls made, and the engine is
left as the compilation left it); and when execution gives a value `ret`, `Run` returns
`ConvertFromV8(ret)`. -/
theorem Run_outcome (cmp : EqualityComparer) (A : Allocator) (E : Engine σ)
    (this : ContextRef) (iScript : String) (resource : Option String) (s : State σ) :
    let compiled := E.Compile iScript resource s.engine
    let out := JavascriptContext.RunEither cmp A E this iScript resource s
    ((∃ e, out.1 = .error e) ↔
      (compiled.1 = none ∨
        ∃ script, compiled.1 = some script ∧ (E.Run script compiled.2).1 = none)) ∧
    (compiled.1 = none →
      out.1 = .error { tryCatch := E.caught compiled.2 } ∧
      out.2.engine = compiled.2 ∧
      ∀ script, Event.run script ∉ out.2.trace.drop s.trace.length) ∧
    (∀ script ret, compiled.1 = some script → (E.Run script compiled.2).1 = some ret →
      out.1 = .ok (E.ConvertFromV8 ret)) := by
  intro compiled out
  have h := RunEither_eq cmp A E this iScript resource s
  refine ⟨?_, ?_, ?_⟩
  · show (∃ e, (JavascriptContext.RunEither cmp A E this iScript resource s).1 = .error e) ↔ _
    rw [h]
    cases hc : (E.Compile iScript resource s.engine).1 with
    | none => simp [compiled, hc]
    | some script =>
      cases hr : (E.Run script (E.Compile iScript resource s.engine).2).1 with
      | none => simp [compiled, hc, hr]
      | some ret => simp [compiled, hc, hr]
  · intro hc
    have hc2 : (E.Compile iScript resource s.engine).1 = none := hc
    show (JavascriptContext.RunEither cmp A E this iScript resource s).1 = _ ∧
      (JavascriptContext.RunEither cmp A E this iScript resource s).2.engine = _ ∧
      ∀ script, Event.run script ∉
        (JavascriptContext.RunEither cmp A E this iScript resource s).2.trace.drop s.trace.length
    rw [h, hc2]
    refine ⟨rfl, rfl, ?_⟩
    intro script
    simp only [List.drop_left]
    simp
  · intro script ret hc hr
    have hc2 : (E.Compile iScript resource s.engine).1 = some script := hc
    have hr2 : (E.Run script (E.Compile iScript resource s.engine).2).1 = some ret := hr
    show (JavascriptContext.RunEither cmp A E this iScript resource s).1 = _
    rw [h, hc2]
    simp only [hr2]

/-- C4 as stated fails. On a new context the source `host.make(); throw 1` compiles to a
script whose execution has a callback wrap host object 5 and then fails: `Run` throws,
and the registry of the context, empty before the call, holds an entry for object 5
after it. -/
theorem Run_failure_adds_entry :
    (JavascriptContext.RunEither referenceEquality bumpAllocator sampleEngine 0
        "host.make(); throw 1" none
        (JavascriptContext.ctor bumpAllocator 0 1 State.boot)).1 = .error { tryCatch := 7 } ∧
    ((JavascriptContext.ctor bumpAllocator 0 1 State.boot :
        State Unit).objects 0).mExternals = [] ∧
    ((JavascriptContext.RunEither referenceEquality bumpAllocator sampleEngine 0
        "host.make(); throw 1" none
        (JavascriptContext.ctor bumpAllocator 0 1 State.boot)).2.objects 0).mExternals =
      [{ hashCode := 5, key := 5, value := 2 }] := by
  refine ⟨rfl, ?_, ?_⟩ <;> decide

/-- C4, amended. For both overloads, when `Run` throws: the current context, the locks
held and the entered isolates and contexts are what they were before the call; every
context keeps its isolate and its global-context handle; the registry of the context
keeps the entries it had, behind those added, and the other context objects are
unchanged; no native object is freed; a failed compilation changes no context object
and no native object, and a failed execution leaves the context objects and the native
heap that `WrapObject`, called on the context for each object the execution's callbacks
handed over, leaves; the calls made are those of `Enter`, then the compilation that
failed or the compilation and the execution that failed, then those of `Exit`; and a
context that was usable still is. -/
theorem Run_failure_leaves_scope (cmp : EqualityComparer) (A : Allocator) (E : Engine σ)
    (this : ContextRef) (iScript : String) (resource : Option String) (s : State σ)
    (e : JavascriptException)
    (hfail : (JavascriptContext.RunEither cmp A E this iScript resource s).1 = .error e) :
    let compiled := E.Compile iScript resource s.engine
    let out := JavascriptContext.RunEither cmp A E this iScript resource s
    JavascriptContext.GetCurrent out.2 = JavascriptContext.GetCurrent s ∧
    out.2.locked = s.locked ∧ out.2.entered = s.entered ∧ out.2.contexts = s.contexts ∧
    (∀ c, (out.2.objects c).isolate = (s.objects c).isolate ∧
      (out.2.objects c).mContext = (s.objects c).mContext) ∧
    (∃ added, (out.2.objects this).mExternals = added ++ (s.objects this).mExternals) ∧
    (∀ c, c ≠ this → out.2.objects c = s.objects c) ∧
    (∃ made, out.2.heap = made ++ s.heap) ∧
    (∃ calls, out.2.trace =
        s.trace ++ [.lockerCtor (s.objects this).isolate,
          .isolateEnter (s.objects this).isolate,
          .contextEnter (s.objects this).isolate (s.objects this).mContext]
        ++ calls
        ++ [.contextExit (s.objects this).isolate (s.objects this).mContext,
          .isolateExit (s.objects this).isolate, .lockerDtor (s.objects this).isolate] ∧
      ((compiled.1 = none ∧ calls = [.compile iScript resource] ∧
          out.2.objects = s.objects ∧ out.2.heap = s.heap) ∨
        ∃ script, compiled.1 = some script ∧ (E.Run script compiled.2).1 = none ∧
          calls = [.compile iScript resource, .run script] ∧
          out.2.objects = (wrapEach cmp A
            ((E.exposed script compiled.2).map (fun iObject => (this, iObject))) s).objects ∧
          out.2.heap = (wrapEach cmp A
            ((E.exposed script compiled.2).map (fun iObject => (this, iObject))) s).heap)) ∧
    (JavascriptContext.Usable this s → JavascriptContext.Usable this out.2) := by
  intro compiled out
  have h := RunEither_eq cmp A E this iScript resource s
  have hout : out = JavascriptContext.RunEither cmp A E this iScript resource s := rfl
  rw [h] at hout hfail
  cases hc : (E.Compile iScript resource s.engine).1 with
  | none =>
    rw [hc] at hout
    simp only at hout
    rw [hout]
    refine ⟨rfl, rfl, rfl, rfl, fun _ => ⟨rfl, rfl⟩, ⟨[], rfl⟩, fun _ _ => rfl, ⟨[], rfl⟩,
      ⟨[.compile iScript resource], ?_, Or.inl ⟨rfl, rfl, rfl, rfl⟩⟩, fun hu => hu⟩
    simp
  | some script =>
    rw [hc] at hout hfail
    simp only at hout hfail
    rw [hout]
    have hr : (E.Run script compiled.2).1 = none := by
      cases hr : (E.Run script (E.Compile iScript resource s.engine).2).1 with
      | none => rfl
      | some ret => rw [hr] at hfail; cases hfail
    have hobjects : ∀ c : ContextRef, _ := fun c => wrapEach_objects cmp A c
      ((E.exposed script (E.Compile iScript resource s.engine).2).map
        (fun iObject => (this, iObject))) s
    have hheap := wrapEach_heap cmp A
      ((E.exposed script (E.Compile iScript resource s.engine).2).map
        (fun iObject => (this, iObject))) s
    refine ⟨rfl, rfl, rfl, rfl,
      fun c => ⟨(hobjects c).1, (hobjects c).2.1⟩, (hobjects this).2.2,
      fun c hne => wrapEach_other cmp A this c hne _ s, hheap,
      ⟨[.compile iScript resource, .run script], ?_,
        Or.inr ⟨script, rfl, hr, rfl, rfl, rfl⟩⟩, ?_⟩
    · simp
    · intro hu
      obtain ⟨made, hmade⟩ := hheap
      refine ⟨?_, ?_⟩
      · show ((wrapEach cmp A _ s).objects this).mContext ∈ (wrapEach cmp A _ s).heap
        rw [(hobjects this).2.1, hmade]
        exact List.mem_append_right _ hu.1
      · show ((wrapEach cmp A _ s).objects this).isolate ∉ s.disposed
        rw [(hobjects this).1]
        exact hu.2

/-- C4, amended, at concrete inputs on a new context: the source `syntax (((` does not
compile, and a second `Run` on the state the failed one left returns its value; the
source `host.make(); throw 1` fails in execution after object 5 was wrapped, and the
context is usable afterwards. -/
theorem Run_failure_leaves_scope_witness :
    (JavascriptContext.RunEither referenceEquality bumpAllocator sampleEngine 0 "syntax ((("
        none (JavascriptContext.ctor bumpAllocator 0 1 State.boot)).1 =
      .error { tryCatch := 7 } ∧
    (JavascriptContext.RunEither referenceEquality bumpAllocator sampleEngine 0 "41+1" none
        (JavascriptContext.RunEither referenceEquality bumpAllocator sampleEngine 0
          "syntax (((" none (JavascriptContext.ctor bumpAllocator 0 1 State.boot)).2).1 =
      .ok 42 ∧
    JavascriptContext.GetCurrent
        (JavascriptContext.RunEither referenceEquality bumpAllocator sampleEngine 0
          "syntax (((" none (JavascriptContext.ctor bumpAllocator 0 1 State.boot)).2 =
      JavascriptContext.GetCurrent (JavascriptContext.ctor bumpAllocator 0 1 State.boot) ∧
    (JavascriptContext.RunEither referenceEquality bumpAllocator sampleEngine 0
        "host.make(); throw 1" none
        (JavascriptContext.ctor bumpAllocator 0 1 State.boot)).2.locked =
      (JavascriptContext.ctor bumpAllocator 0 1 State.boot).locked ∧
    JavascriptContext.Usable 0
      (JavascriptContext.RunEither referenceEquality bumpAllocator sampleEngine 0
        "host.make(); throw 1" none
        (JavascriptContext.ctor bumpAllocator 0 1 State.boot)).2 :=
  ⟨rfl, rfl,
    (Run_failure_leaves_scope referenceEquality bumpAllocator sampleEngine 0 "syntax ((("
      none (JavascriptContext.ctor bumpAllocator 0 1 State.boot) { tryCatch := 7 } rfl).1,
    (Run_failure_leaves_scope referenceEquality bumpAllocator sampleEngine 0
      "host.make(); throw 1" none (JavascriptContext.ctor bumpAllocator 0 1 State.boot)
      { tryCatch := 7 } rfl).2.1,
    (Run_failure_leaves_scope referenceEquality bumpAllocator sampleEngine 0
      "host.make(); throw 1" none (JavascriptContext.ctor bumpAllocator 0 1 State.boot)
      { tryCatch := 7 } rfl).2.2.2.2.2.2.2.2.2 ⟨by decide, by decide⟩⟩

end Run

/-! ### Fatal errors -/

section Fatal

theorem SetFatalErrorHandler_last (handlers : List (Option FatalErrorHandler)) :
    ∀ p : Process,
      (handlers.foldl (fun p handler => JavascriptContext.SetFatalErrorHandler handler p)
          p).fatalErrorHandler =
        (match handlers.getLast? with
          | some handler => handler
          | none => p.fatalErrorHandler) ∧
      (handlers.foldl (fun p handler => JavascriptContext.SetFatalErrorHandler handler p)
          p).effects = p.effects := by
  induction handlers with
  | nil => intro p; exact ⟨rfl, rfl⟩
  | cons h rest ih =>
    intro p
    obtain ⟨h1, h2⟩ := ih (JavascriptContext.SetFatalErrorHandler h p)
    simp only [List.foldl_cons]
    refine ⟨?_, by rw [h2]; rfl⟩
    rw [h1]
    cases rest with
    | nil => rfl
    | cons r rest =>
      rw [List.getLast?_cons_cons]
      cases hg : (r :: rest).getLast? with
      | none => simp at hg
      | some handler => rfl

/-- C7. After any calls of `SetFatalErrorHandler` in a process that started with no
handler, a fatal error with `location` and `message` does this and nothing else: when
the handler passed last is not null, that handler is invoked once with `location` and
`message`; when it is null or none was ever passed, `location` and then `message` are
written to standard output; then SIGABRT is raised and the process has ended. -/
theorem FatalErrorCallback_dispatch (handlers : List (Option FatalErrorHandler))
    (location message : String) :
    let p := handlers.foldl
      (fun p handler => JavascriptContext.SetFatalErrorHandler handler p) Process.start
    let q := FatalErrorCallback location message p
    q.aborted = true ∧
    q.effects =
      (match handlers.getLast? with
        | some (some handler) => [.handlerInvoked handler location message, .raiseSIGABRT]
        | _ => [.consoleWriteLine location, .consoleWriteLine message, .raiseSIGABRT]) := by
  intro p q
  obtain ⟨h1, h2⟩ := SetFatalErrorHandler_last handlers Process.start
  have hp1 : p.fatalErrorHandler = _ := h1
  have hp2 : p.effects = [] := h2
  refine ⟨rfl, ?_⟩
  show (FatalErrorCallback location message p).effects = _
  unfold FatalErrorCallback JavascriptContext.FatalErrorCallbackMember raiseSIGABRT
  rcases hl : handlers.getLast? with _ | (_ | handler)
  · rw [hl] at hp1
    simp [hp1, hp2, Process.start]
  · rw [hl] at hp1
    simp [hp1, hp2]
  · rw [hl] at hp1
    simp [hp1, hp2]

end Fatal

end Noesis.Javascript
